import Mathlib

/-!
Colorspace conversion library: RGB, HSL and HSV.

A shallow embedding of `colorspace_conversion_library.hpp`.

* `int` parameters are modelled as `ℤ`; all inputs of interest lie in `[0,255]`,
  far from any overflow.
* `float` values are modelled as rationals `ℚ`, in two readings of the arithmetic.
  In the exact reading (`rgb_to_hsl`, `hsl_to_rgb`, `rgb_to_hsv`, `hsv_to_rgb`) every
  float operation is the exact arithmetic operation.  In the binary32 reading
  (`rgb_to_hsl_f32`, `hsl_to_rgb_f32`, `rgb_to_hsv_f32`, `hsv_to_rgb_f32`) every operation on
  `float`
  operands is rounded to the nearest binary32 number by `f32`, every operation with a
  `double` operand is rounded to the nearest binary64 number by `f64`, and a `double`
  stored in a `float` is rounded by `f32`, ties going to the even neighbour.  Each
  operation is rounded on its own (no fused multiply-add, no extended precision).  The
  exponent range is bounded below (subnormal numbers are modelled) and not above: no
  operation of the four functions overflows on the inputs considered.
* The C library function `round` followed by the conversion to `int` is `cround`
  (nearest integer, halves away from zero); the cast `(int)h` is `ctrunc` (truncation
  toward zero).
* The reference out-parameters `int& r, int& g, int& b` of `hsv_to_rgb` are
  modelled by explicit state passing: the function receives the values the
  three variables hold before the call and returns the values they hold after.
-/

namespace Colorspace

/-- An RGB colour, three machine integers. -/
structure Rgb where
  r : ℤ
  g : ℤ
  b : ℤ
deriving DecidableEq, Repr

/-- An HSL colour as written to the out-parameters `h`, `s`, `l`. -/
structure Hsl where
  h : ℚ
  s : ℚ
  l : ℚ
deriving DecidableEq, Repr

/-- An HSV colour as written to the out-parameters `h`, `s`, `v`. -/
structure Hsv where
  h : ℚ
  s : ℚ
  v : ℚ
deriving DecidableEq, Repr

/-- C `round` followed by conversion to `int`: the nearest integer, halfway
cases rounded away from zero. -/
def cround (x : ℚ) : ℤ :=
  if 0 ≤ x then ⌊x + 1 / 2⌋ else ⌈x - 1 / 2⌉

/-- The C cast `(int)x` of a floating value: truncation toward zero. -/
def ctrunc (x : ℚ) : ℤ :=
  if 0 ≤ x then ⌊x⌋ else ⌈x⌉

/-- Source lines 54-79. -/
def rgb_to_hsl (r g b : ℤ) : Hsl :=
  let fr : ℚ := (r : ℚ) / 255
  let fg : ℚ := (g : ℚ) / 255
  let fb : ℚ := (b : ℚ) / 255
  let imax : ℤ := max (max r g) b
  let imin : ℤ := min (min r g) b
  let fmax : ℚ := (imax : ℚ) / 255
  let fmin : ℚ := (imin : ℚ) / 255
  let multiplier : ℚ := if imin = imax then 0 else 60 / (fmax - fmin)
  let h : ℚ :=
    if r = imax then
      let h0 : ℚ := multiplier * (fg - fb) + 360
      if h0 ≥ 360 then h0 - 360 else h0
    else if g = imax then
      multiplier * (fb - fr) + 120
    else
      multiplier * (fr - fg) + 240
  let l : ℚ := (1 / 2) * (fmax + fmin)
  let s : ℚ :=
    if imax = imin then 0
    else if l ≤ 1 / 2 then (fmax - fmin) / (2 * l)
    else (fmax - fmin) / (2 - 2 * l)
  ⟨h, s, l⟩

/-- Source lines 94-97: the add/subtract-1 wrap applied to `t[i]`. -/
def hsl_wrap (t : ℚ) : ℚ :=
  if t < 0 then t + 1
  else if t > 1 then t - 1
  else t

/-- Source lines 99-106: the four-region piecewise colour function applied to
the wrapped `t[i]`. -/
def hsl_color (p q t : ℚ) : ℚ :=
  if t < 1 / 6 then p + ((q - p) * 6 * t)
  else if 1 / 6 ≤ t ∧ t < 1 / 2 then q
  else if 1 / 2 ≤ t ∧ t < 2 / 3 then p + ((q - p) * 6 * (2 / 3 - t))
  else p

/-- Source line 84-87: the intermediate `q`. -/
def hsl_q (s l : ℚ) : ℚ :=
  if l < 1 / 2 then l * (1 + s) else l + s - (l * s)

/-- Source line 88: the intermediate `p`. -/
def hsl_p (s l : ℚ) : ℚ :=
  2 * l - hsl_q s l

/-- Source lines 81-111.  The loop over `i = 0, 1, 2` is unrolled: every
iteration wraps `t[i]` and then replaces it by its colour. -/
def hsl_to_rgb (h s l : ℚ) : Rgb :=
  let q : ℚ := hsl_q s l
  let p : ℚ := hsl_p s l
  let h : ℚ := h / 360
  let t0 : ℚ := hsl_color p q (hsl_wrap (h + 1 / 3))
  let t1 : ℚ := hsl_color p q (hsl_wrap h)
  let t2 : ℚ := hsl_color p q (hsl_wrap (h - 1 / 3))
  ⟨cround (t0 * 255), cround (t1 * 255), cround (t2 * 255)⟩

/-- Source lines 113-136. -/
def rgb_to_hsv (r g b : ℤ) : Hsv :=
  let fr : ℚ := (r : ℚ) / 255
  let fg : ℚ := (g : ℚ) / 255
  let fb : ℚ := (b : ℚ) / 255
  let imax : ℤ := max (max r g) b
  let imin : ℤ := min (min r g) b
  let fmax : ℚ := (imax : ℚ) / 255
  let fmin : ℚ := (imin : ℚ) / 255
  let multiplier : ℚ := if imin = imax then 0 else 60 / (fmax - fmin)
  let h : ℚ :=
    if r = imax then
      let h0 : ℚ := multiplier * (fg - fb) + 360
      if h0 ≥ 360 then h0 - 360 else h0
    else if g = imax then
      multiplier * (fb - fr) + 120
    else
      multiplier * (fr - fg) + 240
  let s : ℚ := if imax = 0 then 0 else 1 - (fmin / fmax)
  ⟨h, s, fmax⟩

/-- Source line 141: the sector index `hi = (int)(h / 60)`. -/
def hsv_hi (h : ℚ) : ℤ :=
  ctrunc (h / 60)

/-- Source line 142: the remainder `f = h / 60 - hi`. -/
def hsv_f (h : ℚ) : ℚ :=
  h / 60 - (hsv_hi h : ℚ)

/-- Source lines 149-169: the `switch (hi)` without a `default`.  The result
is the triple assigned by the matching case, or `none` when no case matches
and nothing is assigned. -/
def hsv_switch (hi p q t iv : ℤ) : Option Rgb :=
  if hi = 0 then some ⟨iv, t, p⟩
  else if hi = 1 then some ⟨q, iv, p⟩
  else if hi = 2 then some ⟨p, iv, t⟩
  else if hi = 3 then some ⟨p, q, iv⟩
  else if hi = 4 then some ⟨t, p, iv⟩
  else if hi = 5 then some ⟨iv, p, q⟩
  else none

/-- Source lines 138-170.  `old` holds the values of the out-parameters
`r`, `g`, `b` before the call; the result holds their values after it. -/
def hsv_to_rgb (h s v : ℚ) (old : Rgb) : Rgb :=
  let hi : ℤ := hsv_hi h
  let f : ℚ := hsv_f h
  let p : ℤ := cround (v * (1 - s) * 255)
  let q : ℤ := cround (v * (1 - f * s) * 255)
  let t : ℤ := cround (v * (1 - (1 - f) * s) * 255)
  let iv : ℤ := cround (v * 255)
  match hsv_switch hi p q t iv with
  | some out => out
  | none => old


/-- A floating division `x / y` that reports a zero divisor: `none` when the
divisor is zero, the quotient otherwise. -/
def checked_div (x y : ℚ) : Option ℚ :=
  if y = 0 then none else some (x / y)

/-- Source lines 54-79, with every division that is executed routed through
`checked_div`: the result is `none` as soon as an executed division has a zero
divisor, and the triple written by `rgb_to_hsl` otherwise. -/
def rgb_to_hsl_checked (r g b : ℤ) : Option Hsl := do
  let fr ← checked_div (r : ℚ) 255
  let fg ← checked_div (g : ℚ) 255
  let fb ← checked_div (b : ℚ) 255
  let imax : ℤ := max (max r g) b
  let imin : ℤ := min (min r g) b
  let fmax ← checked_div (imax : ℚ) 255
  let fmin ← checked_div (imin : ℚ) 255
  let multiplier ← (if imin = imax then some 0 else checked_div 60 (fmax - fmin))
  let h : ℚ :=
    if r = imax then
      let h0 : ℚ := multiplier * (fg - fb) + 360
      if h0 ≥ 360 then h0 - 360 else h0
    else if g = imax then
      multiplier * (fb - fr) + 120
    else
      multiplier * (fr - fg) + 240
  let l : ℚ := (1 / 2) * (fmax + fmin)
  let s ← (if imax = imin then some 0
    else if l ≤ 1 / 2 then checked_div (fmax - fmin) (2 * l)
    else checked_div (fmax - fmin) (2 - 2 * l))
  pure ⟨h, s, l⟩

/-- Source lines 113-136, with every division that is executed routed through
`checked_div`, as in `rgb_to_hsl_checked`. -/
def rgb_to_hsv_checked (r g b : ℤ) : Option Hsv := do
  let fr ← checked_div (r : ℚ) 255
  let fg ← checked_div (g : ℚ) 255
  let fb ← checked_div (b : ℚ) 255
  let imax : ℤ := max (max r g) b
  let imin : ℤ := min (min r g) b
  let fmax ← checked_div (imax : ℚ) 255
  let fmin ← checked_div (imin : ℚ) 255
  let multiplier ← (if imin = imax then some 0 else checked_div 60 (fmax - fmin))
  let h : ℚ :=
    if r = imax then
      let h0 : ℚ := multiplier * (fg - fb) + 360
      if h0 ≥ 360 then h0 - 360 else h0
    else if g = imax then
      multiplier * (fb - fr) + 120
    else
      multiplier * (fr - fg) + 240
  let s ← (if imax = 0 then some 0
    else do
      let d ← checked_div fmin fmax
      pure (1 - d))
  pure ⟨h, s, fmax⟩

/-- The arm of the dominant-channel `if` / `else if` / `else` chain (source lines
63, 68 and 70) that is executed. -/
inductive HueBranch where
  | red
  | green
  | blue
deriving DecidableEq, Repr

/-- Source lines 54-79, with the arm of the dominant-channel chain that is executed
recorded next to the triple that is written. -/
def rgb_to_hsl_traced (r g b : ℤ) : Hsl × HueBranch :=
  let fr : ℚ := (r : ℚ) / 255
  let fg : ℚ := (g : ℚ) / 255
  let fb : ℚ := (b : ℚ) / 255
  let imax : ℤ := max (max r g) b
  let imin : ℤ := min (min r g) b
  let fmax : ℚ := (imax : ℚ) / 255
  let fmin : ℚ := (imin : ℚ) / 255
  let multiplier : ℚ := if imin = imax then 0 else 60 / (fmax - fmin)
  let hb : ℚ × HueBranch :=
    if r = imax then
      let h0 : ℚ := multiplier * (fg - fb) + 360
      (if h0 ≥ 360 then h0 - 360 else h0, HueBranch.red)
    else if g = imax then
      (multiplier * (fb - fr) + 120, HueBranch.green)
    else
      (multiplier * (fr - fg) + 240, HueBranch.blue)
  let l : ℚ := (1 / 2) * (fmax + fmin)
  let s : ℚ :=
    if imax = imin then 0
    else if l ≤ 1 / 2 then (fmax - fmin) / (2 * l)
    else (fmax - fmin) / (2 - 2 * l)
  (⟨hb.1, s, l⟩, hb.2)

/-- Source lines 113-136, with the arm of the dominant-channel chain that is executed
recorded next to the triple that is written. -/
def rgb_to_hsv_traced (r g b : ℤ) : Hsv × HueBranch :=
  let fr : ℚ := (r : ℚ) / 255
  let fg : ℚ := (g : ℚ) / 255
  let fb : ℚ := (b : ℚ) / 255
  let imax : ℤ := max (max r g) b
  let imin : ℤ := min (min r g) b
  let fmax : ℚ := (imax : ℚ) / 255
  let fmin : ℚ := (imin : ℚ) / 255
  let multiplier : ℚ := if imin = imax then 0 else 60 / (fmax - fmin)
  let hb : ℚ × HueBranch :=
    if r = imax then
      let h0 : ℚ := multiplier * (fg - fb) + 360
      (if h0 ≥ 360 then h0 - 360 else h0, HueBranch.red)
    else if g = imax then
      (multiplier * (fb - fr) + 120, HueBranch.green)
    else
      (multiplier * (fr - fg) + 240, HueBranch.blue)
  let s : ℚ := if imax = 0 then 0 else 1 - (fmin / fmax)
  (⟨hb.1, s, fmax⟩, hb.2)

/-- Rounding to the nearest integer, halfway cases going to the even integer. -/
def round_even (m : ℚ) : ℤ :=
  if m - ⌊m⌋ < 1 / 2 then ⌊m⌋
  else if 1 / 2 < m - ⌊m⌋ then ⌊m⌋ + 1
  else if ⌊m⌋ % 2 = 0 then ⌊m⌋
  else ⌊m⌋ + 1

/-- The spacing of the floating-point numbers of precision `p` (in bits) and least
normal exponent `emin` around a positive `x`: `2 ^ (e - (p - 1))`, where `e` is the
binary exponent of `x`, replaced by `emin` in the subnormal range. -/
def fl_ulp (p : ℕ) (emin : ℤ) (x : ℚ) : ℚ :=
  (2 : ℚ) ^ (max (Int.log 2 x) emin - ((p : ℤ) - 1))

/-- Rounding of a nonnegative `x` to the nearest floating-point number of precision `p`
and least normal exponent `emin`, ties to even. -/
def fl_pos (p : ℕ) (emin : ℤ) (x : ℚ) : ℚ :=
  (round_even (x / fl_ulp p emin x) : ℚ) * fl_ulp p emin x

/-- Rounding to the nearest floating-point number of precision `p` and least normal
exponent `emin`, ties to even; negative numbers are rounded by symmetry. -/
def fl_round (p : ℕ) (emin : ℤ) (x : ℚ) : ℚ :=
  if 0 ≤ x then fl_pos p emin x else -fl_pos p emin (-x)

/-- Rounding to binary32 (`float`): 24 bits of precision, least normal exponent
`-126`. -/
def f32 (x : ℚ) : ℚ :=
  fl_round 24 (-126) x

/-- Rounding to binary64 (`double`): 53 bits of precision, least normal exponent
`-1022`. -/
def f64 (x : ℚ) : ℚ :=
  fl_round 53 (-1022) x

/-- Source lines 54-79 in binary32.  `r/255.0` is a `double` division stored in a
`float`; `fmax - fmin`, `60/(...)`, the products and the sums with `360`, `120`, `240`
are `float` operations; `.5*(fmax + fmin)` is a `float` sum multiplied in `double` and
stored in a `float`; `2*l`, `2 - 2*l` and the quotients are `float` operations. -/
def rgb_to_hsl_f32 (r g b : ℤ) : Hsl :=
  let fr : ℚ := f32 (f64 ((r : ℚ) / 255))
  let fg : ℚ := f32 (f64 ((g : ℚ) / 255))
  let fb : ℚ := f32 (f64 ((b : ℚ) / 255))
  let imax : ℤ := max (max r g) b
  let imin : ℤ := min (min r g) b
  let fmax : ℚ := f32 (f64 ((imax : ℚ) / 255))
  let fmin : ℚ := f32 (f64 ((imin : ℚ) / 255))
  let multiplier : ℚ := if imin = imax then 0 else f32 (60 / f32 (fmax - fmin))
  let h : ℚ :=
    if r = imax then
      let h0 : ℚ := f32 (f32 (multiplier * f32 (fg - fb)) + 360)
      if h0 ≥ 360 then f32 (h0 - 360) else h0
    else if g = imax then
      f32 (f32 (multiplier * f32 (fb - fr)) + 120)
    else
      f32 (f32 (multiplier * f32 (fr - fg)) + 240)
  let l : ℚ := f32 (f64 ((1 / 2) * f32 (fmax + fmin)))
  let s : ℚ :=
    if imax = imin then 0
    else if l ≤ 1 / 2 then f32 (f32 (fmax - fmin) / f32 (2 * l))
    else f32 (f32 (fmax - fmin) / f32 (2 - f32 (2 * l)))
  ⟨h, s, l⟩

/-- Source lines 113-136 in binary32; the hue is computed as in `rgb_to_hsl_f32`,
`fmin/fmax` and the difference `1 - ...` are `float` operations. -/
def rgb_to_hsv_f32 (r g b : ℤ) : Hsv :=
  let fr : ℚ := f32 (f64 ((r : ℚ) / 255))
  let fg : ℚ := f32 (f64 ((g : ℚ) / 255))
  let fb : ℚ := f32 (f64 ((b : ℚ) / 255))
  let imax : ℤ := max (max r g) b
  let imin : ℤ := min (min r g) b
  let fmax : ℚ := f32 (f64 ((imax : ℚ) / 255))
  let fmin : ℚ := f32 (f64 ((imin : ℚ) / 255))
  let multiplier : ℚ := if imin = imax then 0 else f32 (60 / f32 (fmax - fmin))
  let h : ℚ :=
    if r = imax then
      let h0 : ℚ := f32 (f32 (multiplier * f32 (fg - fb)) + 360)
      if h0 ≥ 360 then f32 (h0 - 360) else h0
    else if g = imax then
      f32 (f32 (multiplier * f32 (fb - fr)) + 120)
    else
      f32 (f32 (multiplier * f32 (fr - fg)) + 240)
  let s : ℚ := if imax = 0 then 0 else f32 (1 - f32 (fmin / fmax))
  ⟨h, s, fmax⟩

/-- Source lines 94-97 in binary32: `t[i] += 1` and `t[i] -= 1` are `float`
operations. -/
def hsl_wrap_f32 (t : ℚ) : ℚ :=
  if t < 0 then f32 (t + 1)
  else if t > 1 then f32 (t - 1)
  else t

/-- Source lines 99-106 in binary32.  The bounds `1.0/6.0` and `2.0/3.0` are `double`
quotients; `(q - p)*6*t[i]` and the sum with `p` are `float` operations in the first
region; in the third region `2.0/3.0 - t[i]`, the product with it and the sum with `p`
are `double` operations and the result is stored in a `float`. -/
def hsl_color_f32 (p q t : ℚ) : ℚ :=
  if t < f64 (1 / 6) then f32 (p + f32 (f32 (f32 (q - p) * 6) * t))
  else if f64 (1 / 6) ≤ t ∧ t < 1 / 2 then q
  else if 1 / 2 ≤ t ∧ t < f64 (2 / 3) then
    f32 (f64 (p + f64 (f32 (f32 (q - p) * 6) * f64 (f64 (2 / 3) - t))))
  else p

/-- Source lines 84-87 in binary32. -/
def hsl_q_f32 (s l : ℚ) : ℚ :=
  if l < 1 / 2 then f32 (l * f32 (1 + s)) else f32 (f32 (l + s) - f32 (l * s))

/-- Source line 88 in binary32. -/
def hsl_p_f32 (s l : ℚ) : ℚ :=
  f32 (f32 (2 * l) - hsl_q_f32 s l)

/-- Source line 91 in binary32, entry `0`: `h + 1/3.0` is a `double` sum stored in a
`float`, `h` being the hue already divided by `360`. -/
def hsl_t0_f32 (h : ℚ) : ℚ :=
  f32 (f64 (h + f64 (1 / 3)))

/-- Source line 91 in binary32, entry `2`: `h - 1/3.0` is a `double` difference stored
in a `float`. -/
def hsl_t2_f32 (h : ℚ) : ℚ :=
  f32 (f64 (h - f64 (1 / 3)))

/-- Source lines 81-111 in binary32; `h /= 360` and `t[i]*255` are `float`
operations. -/
def hsl_to_rgb_f32 (h s l : ℚ) : Rgb :=
  let q : ℚ := hsl_q_f32 s l
  let p : ℚ := hsl_p_f32 s l
  let h : ℚ := f32 (h / 360)
  let t0 : ℚ := hsl_color_f32 p q (hsl_wrap_f32 (hsl_t0_f32 h))
  let t1 : ℚ := hsl_color_f32 p q (hsl_wrap_f32 h)
  let t2 : ℚ := hsl_color_f32 p q (hsl_wrap_f32 (hsl_t2_f32 h))
  ⟨cround (f32 (t0 * 255)), cround (f32 (t1 * 255)), cround (f32 (t2 * 255))⟩

/-- Source lines 140-141 in binary32: `h /= 60` is a `float` division, then the
cast. -/
def hsv_hi_f32 (h : ℚ) : ℤ :=
  ctrunc (f32 (h / 60))

/-- Source line 142 in binary32: `f = h - hi` is a `float` subtraction. -/
def hsv_f_f32 (h : ℚ) : ℚ :=
  f32 (f32 (h / 60) - (hsv_hi_f32 h : ℚ))

/-- Source lines 138-170 in binary32: every difference and product in the arguments
of `round` is a `float` operation. -/
def hsv_to_rgb_f32 (h s v : ℚ) (old : Rgb) : Rgb :=
  let hi : ℤ := hsv_hi_f32 h
  let f : ℚ := hsv_f_f32 h
  let p : ℤ := cround (f32 (f32 (v * f32 (1 - s)) * 255))
  let q : ℤ := cround (f32 (f32 (v * f32 (1 - f32 (f * s))) * 255))
  let t : ℤ := cround (f32 (f32 (v * f32 (1 - f32 (f32 (1 - f) * s))) * 255))
  let iv : ℤ := cround (f32 (v * 255))
  match hsv_switch hi p q t iv with
  | some out => out
  | none => old

/-! ## Rounding and truncation -/

lemma cround_intCast (k : ℤ) : cround (k : ℚ) = k := by
  unfold cround
  split_ifs with h
  · rw [Int.floor_eq_iff]
    constructor <;> linarith
  · rw [Int.ceil_eq_iff]
    constructor <;> linarith

lemma cround_nonneg {x : ℚ} (hx : 0 ≤ x) : 0 ≤ cround x := by
  unfold cround
  rw [if_pos hx]
  apply Int.floor_nonneg.mpr
  linarith

lemma cround_le_of_le {x : ℚ} {n : ℤ} (hx : 0 ≤ x) (hn : x ≤ n) : cround x ≤ n := by
  unfold cround
  rw [if_pos hx]
  have h1 : ⌊x + 1 / 2⌋ < n + 1 := by
    rw [Int.floor_lt]
    push_cast
    linarith
  omega

lemma ctrunc_eq_floor {x : ℚ} (hx : 0 ≤ x) : ctrunc x = ⌊x⌋ := by
  unfold ctrunc
  rw [if_pos hx]

/-! ## Channel extrema -/

lemma rgb_cases (r g b : ℤ) :
    (r = g ∧ g = b) ∨ (b ≤ g ∧ g ≤ r ∧ b < r) ∨ (g < b ∧ b ≤ r) ∨ (b < r ∧ r < g) ∨
      (r ≤ b ∧ b ≤ g ∧ r < g) ∨ (r < g ∧ g < b) ∨ (g ≤ r ∧ r < b) := by
  omega

/-- The hue multiplier applied to a channel difference, with the common factor
`255` cancelled. -/
lemma multiplier_mul (x y u w : ℚ) (hxy : y < x) :
    60 / (x / 255 - y / 255) * (u / 255 - w / 255) = 60 * ((u - w) / (x - y)) := by
  have hd : x - y ≠ 0 := by
    have : 0 < x - y := by linarith
    exact ne_of_gt this
  field_simp
  ring

/-! ## Closed forms of the hue, one per ordering of the channels -/

lemma hue_gray (k : ℤ) : (rgb_to_hsl k k k).h = 0 := by
  simp [rgb_to_hsl]

lemma hue_red_up {r g b : ℤ} (h1 : b ≤ g) (h2 : g ≤ r) (h3 : b < r) :
    (rgb_to_hsl r g b).h = 60 * (((g : ℚ) - b) / ((r : ℚ) - b)) := by
  have hmax : max (max r g) b = r := by omega
  have hmin : min (min r g) b = b := by omega
  have hne : ¬ b = r := by omega
  have hq : (b : ℚ) < r := by exact_mod_cast h3
  have hq1 : (b : ℚ) ≤ g := by exact_mod_cast h1
  have hc : 0 ≤ ((g : ℚ) - b) / ((r : ℚ) - b) :=
    div_nonneg (by linarith) (by linarith)
  simp only [rgb_to_hsl, hmax, hmin, hne, if_false, if_true]
  rw [multiplier_mul _ _ _ _ hq]
  rw [if_pos (by linarith)]
  ring

lemma hue_red_down {r g b : ℤ} (h1 : g < b) (h2 : b ≤ r) :
    (rgb_to_hsl r g b).h = 360 - 60 * (((b : ℚ) - g) / ((r : ℚ) - g)) := by
  have hmax : max (max r g) b = r := by omega
  have hmin : min (min r g) b = g := by omega
  have hne : ¬ g = r := by omega
  have hq : (g : ℚ) < r := by exact_mod_cast (by omega : g < r)
  have hq1 : (g : ℚ) < b := by exact_mod_cast h1
  have hc : 0 < ((b : ℚ) - g) / ((r : ℚ) - g) :=
    div_pos (by linarith) (by linarith)
  simp only [rgb_to_hsl, hmax, hmin, hne, if_false, if_true]
  rw [multiplier_mul _ _ _ _ hq]
  have e : ((g : ℚ) - b) / ((r : ℚ) - g) = -(((b : ℚ) - g) / ((r : ℚ) - g)) := by
    rw [← neg_div]; congr 1; ring
  rw [e, if_neg (by linarith)]
  ring

lemma hue_green_down {r g b : ℤ} (h1 : b < r) (h2 : r < g) :
    (rgb_to_hsl r g b).h = 120 - 60 * (((r : ℚ) - b) / ((g : ℚ) - b)) := by
  have hmax : max (max r g) b = g := by omega
  have hmin : min (min r g) b = b := by omega
  have hne : ¬ b = g := by omega
  have hr : ¬ r = g := by omega
  have hq : (b : ℚ) < g := by exact_mod_cast (by omega : b < g)
  simp only [rgb_to_hsl, hmax, hmin, hne, hr, if_false, if_true]
  rw [multiplier_mul _ _ _ _ hq]
  have e : ((b : ℚ) - r) / ((g : ℚ) - b) = -(((r : ℚ) - b) / ((g : ℚ) - b)) := by
    rw [← neg_div]; congr 1; ring
  rw [e]
  ring

lemma hue_green_up {r g b : ℤ} (h1 : r ≤ b) (h2 : b ≤ g) (h3 : r < g) :
    (rgb_to_hsl r g b).h = 120 + 60 * (((b : ℚ) - r) / ((g : ℚ) - r)) := by
  have hmax : max (max r g) b = g := by omega
  have hmin : min (min r g) b = r := by omega
  have hne : ¬ r = g := by omega
  have hq : (r : ℚ) < g := by exact_mod_cast h3
  simp only [rgb_to_hsl, hmax, hmin, hne, if_false, if_true]
  rw [multiplier_mul _ _ _ _ hq]
  ring

lemma hue_blue_down {r g b : ℤ} (h1 : r < g) (h2 : g < b) :
    (rgb_to_hsl r g b).h = 240 - 60 * (((g : ℚ) - r) / ((b : ℚ) - r)) := by
  have hmax : max (max r g) b = b := by omega
  have hmin : min (min r g) b = r := by omega
  have hne : ¬ r = b := by omega
  have hg : ¬ g = b := by omega
  have hq : (r : ℚ) < b := by exact_mod_cast (by omega : r < b)
  simp only [rgb_to_hsl, hmax, hmin, hne, hg, if_false, if_true]
  rw [multiplier_mul _ _ _ _ hq]
  have e : ((r : ℚ) - g) / ((b : ℚ) - r) = -(((g : ℚ) - r) / ((b : ℚ) - r)) := by
    rw [← neg_div]; congr 1; ring
  rw [e]
  ring

lemma hue_blue_up {r g b : ℤ} (h1 : g ≤ r) (h2 : r < b) :
    (rgb_to_hsl r g b).h = 240 + 60 * (((r : ℚ) - g) / ((b : ℚ) - g)) := by
  have hmax : max (max r g) b = b := by omega
  have hmin : min (min r g) b = g := by omega
  have hne : ¬ g = b := by omega
  have hr : ¬ r = b := by omega
  have hq : (g : ℚ) < b := by exact_mod_cast (by omega : g < b)
  simp only [rgb_to_hsl, hmax, hmin, hne, hr, if_false, if_true]
  rw [multiplier_mul _ _ _ _ hq]
  ring

/-- A ratio of channel differences `(u - w) / (x - y)` lies in `[0, 1]`. -/
lemma ratio_mem {u w x y : ℤ} (h1 : w ≤ u) (h2 : u - w ≤ x - y) (h3 : y < x) :
    0 ≤ ((u : ℚ) - w) / ((x : ℚ) - y) ∧ ((u : ℚ) - w) / ((x : ℚ) - y) ≤ 1 := by
  have a1 : (w : ℚ) ≤ u := by exact_mod_cast h1
  have a2 : (u : ℚ) - w ≤ (x : ℚ) - y := by exact_mod_cast h2
  have a3 : (y : ℚ) < x := by exact_mod_cast h3
  have hd : (0 : ℚ) < (x : ℚ) - y := by linarith
  exact ⟨div_nonneg (by linarith) hd.le, (div_le_one hd).mpr a2⟩

lemma ratio_pos {u w x y : ℤ} (h1 : w < u) (h3 : y < x) :
    0 < ((u : ℚ) - w) / ((x : ℚ) - y) := by
  have a1 : (w : ℚ) < u := by exact_mod_cast h1
  have a3 : (y : ℚ) < x := by exact_mod_cast h3
  exact div_pos (by linarith) (by linarith)

lemma ratio_lt_one {u w x y : ℤ} (h2 : u - w < x - y) (h3 : y < x) :
    ((u : ℚ) - w) / ((x : ℚ) - y) < 1 := by
  have a2 : (u : ℚ) - w < (x : ℚ) - y := by exact_mod_cast h2
  have a3 : (y : ℚ) < x := by exact_mod_cast h3
  exact (div_lt_one (by linarith)).mpr a2

lemma ratio_mul {u w x y : ℤ} (h3 : y < x) :
    ((u : ℚ) - w) / ((x : ℚ) - y) * ((x : ℚ) - y) = (u : ℚ) - w := by
  have a3 : (y : ℚ) < x := by exact_mod_cast h3
  exact div_mul_cancel₀ _ (by linarith : (x : ℚ) - y ≠ 0)

/-! ## Hue range -/

lemma hue_mem (r g b : ℤ) : 0 ≤ (rgb_to_hsl r g b).h ∧ (rgb_to_hsl r g b).h < 360 := by
  rcases rgb_cases r g b with h | h | h | h | h | h | h
  · obtain ⟨h1, h2⟩ := h
    subst h1
    subst h2
    rw [hue_gray]
    norm_num
  · obtain ⟨h1, h2, h3⟩ := h
    rw [hue_red_up h1 h2 h3]
    have hc := ratio_mem h1 (by omega : g - b ≤ r - b) h3
    constructor <;> linarith [hc.1, hc.2]
  · obtain ⟨h1, h2⟩ := h
    rw [hue_red_down h1 h2]
    have hc := ratio_mem h1.le (by omega : b - g ≤ r - g) (by omega : g < r)
    have hp := ratio_pos h1 (by omega : g < r)
    constructor <;> linarith [hc.1, hc.2]
  · obtain ⟨h1, h2⟩ := h
    rw [hue_green_down h1 h2]
    have hc := ratio_mem h1.le (by omega : r - b ≤ g - b) (by omega : b < g)
    constructor <;> linarith [hc.1, hc.2]
  · obtain ⟨h1, h2, h3⟩ := h
    rw [hue_green_up h1 h2 h3]
    have hc := ratio_mem h1 (by omega : b - r ≤ g - r) h3
    constructor <;> linarith [hc.1, hc.2]
  · obtain ⟨h1, h2⟩ := h
    rw [hue_blue_down h1 h2]
    have hc := ratio_mem h1.le (by omega : g - r ≤ b - r) (by omega : r < b)
    constructor <;> linarith [hc.1, hc.2]
  · obtain ⟨h1, h2⟩ := h
    rw [hue_blue_up h1 h2]
    have hc := ratio_mem h1 (by omega : r - g ≤ b - g) (by omega : g < b)
    constructor <;> linarith [hc.1, hc.2]

lemma hsv_hue_eq (r g b : ℤ) : (rgb_to_hsv r g b).h = (rgb_to_hsl r g b).h := rfl

/-! ## Saturation and lightness of `rgb_to_hsl` -/

/-- The saturation expression of `rgb_to_hsl` for a chromatic colour, as a
function of `fmax` and `fmin`. -/
lemma hsl_sat_bounds {M m : ℚ} (h0 : 0 ≤ m) (h1 : m < M) (h2 : M ≤ 1) :
    0 ≤ (if 1 / 2 * (M + m) ≤ 1 / 2 then (M - m) / (2 * (1 / 2 * (M + m)))
          else (M - m) / (2 - 2 * (1 / 2 * (M + m)))) ∧
      (if 1 / 2 * (M + m) ≤ 1 / 2 then (M - m) / (2 * (1 / 2 * (M + m)))
          else (M - m) / (2 - 2 * (1 / 2 * (M + m)))) ≤ 1 := by
  split_ifs with hl
  · have hd : 0 < 2 * (1 / 2 * (M + m)) := by linarith
    exact ⟨div_nonneg (by linarith) hd.le, (div_le_one hd).mpr (by linarith)⟩
  · have hd : 0 < 2 - 2 * (1 / 2 * (M + m)) := by linarith
    exact ⟨div_nonneg (by linarith) hd.le, (div_le_one hd).mpr (by linarith)⟩

lemma hsl_q_sat {M m : ℚ} (h0 : 0 ≤ m) (h1 : m < M) (h2 : M ≤ 1) :
    hsl_q (if 1 / 2 * (M + m) ≤ 1 / 2 then (M - m) / (2 * (1 / 2 * (M + m)))
          else (M - m) / (2 - 2 * (1 / 2 * (M + m)))) (1 / 2 * (M + m)) = M := by
  unfold hsl_q
  by_cases hl : 1 / 2 * (M + m) < 1 / 2
  · rw [if_pos hl, if_pos hl.le]
    have hd : M + m ≠ 0 := by
      have : 0 < M + m := by linarith
      exact ne_of_gt this
    field_simp
    ring
  · rw [if_neg hl]
    by_cases hl2 : 1 / 2 * (M + m) ≤ 1 / 2
    · rw [if_pos hl2]
      have e : 1 / 2 * (M + m) = 1 / 2 := le_antisymm hl2 (not_lt.mp hl)
      rw [e]
      norm_num
      linarith
    · rw [if_neg hl2]
      have e2 : 2 - 2 * (1 / 2 * (M + m)) = 2 - M - m := by ring
      have hd : 2 - M - m ≠ 0 := by
        have : 0 < 2 - M - m := by linarith
        exact ne_of_gt this
      rw [e2]
      field_simp
      ring

/-! ## The piecewise colour function of `hsl_to_rgb`, sector by sector -/

lemma hsl_color_eq (p q t : ℚ) :
    hsl_color p q t =
      if t < 1 / 6 then p + (q - p) * 6 * t
      else if t < 1 / 2 then q
      else if t < 2 / 3 then p + (q - p) * 6 * (2 / 3 - t)
      else p := by
  unfold hsl_color
  by_cases h1 : t < 1 / 6
  · rw [if_pos h1, if_pos h1]
  · have h1' : 1 / 6 ≤ t := not_lt.mp h1
    by_cases h2 : t < 1 / 2
    · simp only [h1, h2, h1', and_self, if_true, if_false]
    · have h2' : 1 / 2 ≤ t := not_lt.mp h2
      by_cases h3 : t < 2 / 3
      · simp only [h1, h2, h3, h2', and_false, and_self, if_true, if_false]
      · simp only [h1, h2, h3, and_false, if_false]

lemma hsl_sector_red_up (p q c : ℚ) (h0 : 0 ≤ c) (h1 : c ≤ 1) :
    hsl_color p q (hsl_wrap (60 * c / 360 + 1 / 3)) = q ∧
      hsl_color p q (hsl_wrap (60 * c / 360)) = p + (q - p) * c ∧
      hsl_color p q (hsl_wrap (60 * c / 360 - 1 / 3)) = p := by
  refine ⟨?_, ?_, ?_⟩ <;> rw [hsl_color_eq] <;> unfold hsl_wrap <;> split_ifs <;>
    first
      | (exfalso; linarith)
      | ring1
      | (have e : c = 1 := by linarith
         subst e; ring1)

lemma hsl_sector_red_down (p q c : ℚ) (h0 : 0 < c) (h1 : c ≤ 1) :
    hsl_color p q (hsl_wrap ((360 - 60 * c) / 360 + 1 / 3)) = q ∧
      hsl_color p q (hsl_wrap ((360 - 60 * c) / 360)) = p ∧
      hsl_color p q (hsl_wrap ((360 - 60 * c) / 360 - 1 / 3)) = p + (q - p) * c := by
  refine ⟨?_, ?_, ?_⟩ <;> rw [hsl_color_eq] <;> unfold hsl_wrap <;> split_ifs <;>
    first
      | (exfalso; linarith)
      | ring1

lemma hsl_sector_green_down (p q c : ℚ) (h0 : 0 < c) (h1 : c < 1) :
    hsl_color p q (hsl_wrap ((120 - 60 * c) / 360 + 1 / 3)) = p + (q - p) * c ∧
      hsl_color p q (hsl_wrap ((120 - 60 * c) / 360)) = q ∧
      hsl_color p q (hsl_wrap ((120 - 60 * c) / 360 - 1 / 3)) = p := by
  refine ⟨?_, ?_, ?_⟩ <;> rw [hsl_color_eq] <;> unfold hsl_wrap <;> split_ifs <;>
    first
      | (exfalso; linarith)
      | ring1

lemma hsl_sector_green_up (p q c : ℚ) (h0 : 0 ≤ c) (h1 : c ≤ 1) :
    hsl_color p q (hsl_wrap ((120 + 60 * c) / 360 + 1 / 3)) = p ∧
      hsl_color p q (hsl_wrap ((120 + 60 * c) / 360)) = q ∧
      hsl_color p q (hsl_wrap ((120 + 60 * c) / 360 - 1 / 3)) = p + (q - p) * c := by
  refine ⟨?_, ?_, ?_⟩ <;> rw [hsl_color_eq] <;> unfold hsl_wrap <;> split_ifs <;>
    first
      | (exfalso; linarith)
      | ring1
      | (have e : c = 1 := by linarith
         subst e; ring1)

lemma hsl_sector_blue_down (p q c : ℚ) (h0 : 0 < c) (h1 : c < 1) :
    hsl_color p q (hsl_wrap ((240 - 60 * c) / 360 + 1 / 3)) = p ∧
      hsl_color p q (hsl_wrap ((240 - 60 * c) / 360)) = p + (q - p) * c ∧
      hsl_color p q (hsl_wrap ((240 - 60 * c) / 360 - 1 / 3)) = q := by
  refine ⟨?_, ?_, ?_⟩ <;> rw [hsl_color_eq] <;> unfold hsl_wrap <;> split_ifs <;>
    first
      | (exfalso; linarith)
      | ring1

lemma hsl_sector_blue_up (p q c : ℚ) (h0 : 0 ≤ c) (h1 : c < 1) :
    hsl_color p q (hsl_wrap ((240 + 60 * c) / 360 + 1 / 3)) = p + (q - p) * c ∧
      hsl_color p q (hsl_wrap ((240 + 60 * c) / 360)) = p ∧
      hsl_color p q (hsl_wrap ((240 + 60 * c) / 360 - 1 / 3)) = q := by
  refine ⟨?_, ?_, ?_⟩ <;> rw [hsl_color_eq] <;> unfold hsl_wrap <;> split_ifs <;>
    first
      | (exfalso; linarith)
      | ring1
      | (have e : c = 0 := by linarith
         subst e; ring1)

lemma hsl_color_gray (p t : ℚ) : hsl_color p p t = p := by
  rw [hsl_color_eq]
  split_ifs <;> ring1

/-! ## `hsl_to_rgb` after `rgb_to_hsl` -/

/-- On an in-range colour the intermediates `q` and `p` of `hsl_to_rgb` are the
normalised maximum and minimum channel. -/
lemma hsl_pq_rgb (r g b : ℤ) (hr : 0 ≤ r ∧ r ≤ 255) (hg : 0 ≤ g ∧ g ≤ 255)
    (hb : 0 ≤ b ∧ b ≤ 255) :
    hsl_q (rgb_to_hsl r g b).s (rgb_to_hsl r g b).l = ((max (max r g) b : ℤ) : ℚ) / 255 ∧
      hsl_p (rgb_to_hsl r g b).s (rgb_to_hsl r g b).l = ((min (min r g) b : ℤ) : ℚ) / 255 := by
  have hmn : 0 ≤ min (min r g) b := by omega
  have hmx : max (max r g) b ≤ 255 := by omega
  have hle : min (min r g) b ≤ max (max r g) b := by omega
  simp only [rgb_to_hsl, hsl_p]
  generalize max (max r g) b = mx at *
  generalize min (min r g) b = mn at *
  have a0 : (0 : ℚ) ≤ (mn : ℚ) / 255 := div_nonneg (by exact_mod_cast hmn) (by norm_num)
  have a2 : (mx : ℚ) / 255 ≤ 1 := by
    rw [div_le_one (by norm_num)]
    exact_mod_cast hmx
  by_cases he : mx = mn
  · subst he
    rw [if_pos rfl]
    have : hsl_q 0 (1 / 2 * ((mx : ℚ) / 255 + (mx : ℚ) / 255)) = (mx : ℚ) / 255 := by
      unfold hsl_q
      split_ifs <;> ring1
    rw [this]
    constructor
    · rfl
    · ring
  · rw [if_neg he]
    have hlt : mn < mx := by omega
    have a1 : (mn : ℚ) / 255 < (mx : ℚ) / 255 := by
      apply div_lt_div_of_pos_right _ (by norm_num)
      exact_mod_cast hlt
    rw [hsl_q_sat a0 a1 a2]
    constructor
    · rfl
    · ring

lemma cround_chan (k : ℤ) : cround ((k : ℚ) / 255 * 255) = k := by
  rw [div_mul_cancel₀ _ (by norm_num : (255 : ℚ) ≠ 0)]
  exact cround_intCast k

lemma cround_chan_mid {mn mx u w k : ℤ} (h3 : mn < mx) (hk : mn + (u - w) = k) :
    cround (((mn : ℚ) / 255 + ((mx : ℚ) / 255 - (mn : ℚ) / 255) *
      (((u : ℚ) - w) / ((mx : ℚ) - mn))) * 255) = k := by
  have hc := ratio_mul (u := u) (w := w) h3
  have e : ((mn : ℚ) / 255 + ((mx : ℚ) / 255 - (mn : ℚ) / 255) *
      (((u : ℚ) - w) / ((mx : ℚ) - mn))) * 255 = ((k : ℤ) : ℚ) := by
    rw [← hk]
    push_cast
    linear_combination hc
  rw [e]
  exact cround_intCast k

lemma hsl_round_trip_exact (r g b : ℤ) (hr : 0 ≤ r ∧ r ≤ 255) (hg : 0 ≤ g ∧ g ≤ 255)
    (hb : 0 ≤ b ∧ b ≤ 255) :
    hsl_to_rgb (rgb_to_hsl r g b).h (rgb_to_hsl r g b).s (rgb_to_hsl r g b).l = ⟨r, g, b⟩ := by
  obtain ⟨hq, hp⟩ := hsl_pq_rgb r g b hr hg hb
  simp only [hsl_to_rgb]
  rw [hq, hp]
  rcases rgb_cases r g b with h | h | h | h | h | h | h
  · obtain ⟨h1, h2⟩ := h
    subst h1
    subst h2
    have hmax : max (max r r) r = r := by omega
    have hmin : min (min r r) r = r := by omega
    rw [hmax, hmin]
    simp only [hsl_color_gray, cround_chan]
  · obtain ⟨h1, h2, h3⟩ := h
    have hmax : max (max r g) b = r := by omega
    have hmin : min (min r g) b = b := by omega
    have hc := ratio_mem h1 (by omega : g - b ≤ r - b) h3
    obtain ⟨e0, e1, e2⟩ := hsl_sector_red_up ((b : ℚ) / 255) ((r : ℚ) / 255) _ hc.1 hc.2
    rw [hue_red_up h1 h2 h3, hmax, hmin, e0, e1, e2, cround_chan, cround_chan,
      cround_chan_mid h3 (show b + (g - b) = g by omega)]
  · obtain ⟨h1, h2⟩ := h
    have h3 : g < r := by omega
    have hmax : max (max r g) b = r := by omega
    have hmin : min (min r g) b = g := by omega
    have hc := ratio_mem h1.le (by omega : b - g ≤ r - g) h3
    obtain ⟨e0, e1, e2⟩ :=
      hsl_sector_red_down ((g : ℚ) / 255) ((r : ℚ) / 255) _ (ratio_pos h1 h3) hc.2
    rw [hue_red_down h1 h2, hmax, hmin, e0, e1, e2, cround_chan, cround_chan,
      cround_chan_mid h3 (show g + (b - g) = b by omega)]
  · obtain ⟨h1, h2⟩ := h
    have h3 : b < g := by omega
    have hmax : max (max r g) b = g := by omega
    have hmin : min (min r g) b = b := by omega
    obtain ⟨e0, e1, e2⟩ :=
      hsl_sector_green_down ((b : ℚ) / 255) ((g : ℚ) / 255) _ (ratio_pos h1 h3)
        (ratio_lt_one (by omega : r - b < g - b) h3)
    rw [hue_green_down h1 h2, hmax, hmin, e0, e1, e2, cround_chan, cround_chan,
      cround_chan_mid h3 (show b + (r - b) = r by omega)]
  · obtain ⟨h1, h2, h3⟩ := h
    have hmax : max (max r g) b = g := by omega
    have hmin : min (min r g) b = r := by omega
    have hc := ratio_mem h1 (by omega : b - r ≤ g - r) h3
    obtain ⟨e0, e1, e2⟩ := hsl_sector_green_up ((r : ℚ) / 255) ((g : ℚ) / 255) _ hc.1 hc.2
    rw [hue_green_up h1 h2 h3, hmax, hmin, e0, e1, e2, cround_chan, cround_chan,
      cround_chan_mid h3 (show r + (b - r) = b by omega)]
  · obtain ⟨h1, h2⟩ := h
    have h3 : r < b := by omega
    have hmax : max (max r g) b = b := by omega
    have hmin : min (min r g) b = r := by omega
    obtain ⟨e0, e1, e2⟩ :=
      hsl_sector_blue_down ((r : ℚ) / 255) ((b : ℚ) / 255) _ (ratio_pos h1 h3)
        (ratio_lt_one (by omega : g - r < b - r) h3)
    rw [hue_blue_down h1 h2, hmax, hmin, e0, e1, e2, cround_chan, cround_chan,
      cround_chan_mid h3 (show r + (g - r) = g by omega)]
  · obtain ⟨h1, h2⟩ := h
    have h3 : g < b := by omega
    have hmax : max (max r g) b = b := by omega
    have hmin : min (min r g) b = g := by omega
    have hc := ratio_mem h1 (by omega : r - g ≤ b - g) h3
    obtain ⟨e0, e1, e2⟩ :=
      hsl_sector_blue_up ((g : ℚ) / 255) ((b : ℚ) / 255) _ hc.1
        (ratio_lt_one (by omega : r - g < b - g) h3)
    rw [hue_blue_up h1 h2, hmax, hmin, e0, e1, e2, cround_chan, cround_chan,
      cround_chan_mid h3 (show g + (r - g) = r by omega)]

/-! ## `hsv_to_rgb`: sector index and remainder -/

lemma hsv_hi_f {h c : ℚ} {n : ℤ} (hn : 0 ≤ n) (h0 : 0 ≤ c) (h1 : c < 1)
    (e : h / 60 = (n : ℚ) + c) : hsv_hi h = n ∧ hsv_f h = c := by
  have hnq : (0 : ℚ) ≤ (n : ℚ) := by exact_mod_cast hn
  have hi : hsv_hi h = n := by
    unfold hsv_hi
    rw [ctrunc_eq_floor (by rw [e]; linarith), e, Int.floor_eq_iff]
    constructor <;> linarith
  refine ⟨hi, ?_⟩
  unfold hsv_f
  rw [hi, e]
  ring

lemma hsv_to_rgb_sector {h c : ℚ} {n : ℤ} (s v : ℚ) (old : Rgb) (hn : 0 ≤ n) (h0 : 0 ≤ c)
    (h1 : c < 1) (e : h / 60 = (n : ℚ) + c) :
    hsv_to_rgb h s v old =
      (hsv_switch n (cround (v * (1 - s) * 255)) (cround (v * (1 - c * s) * 255))
          (cround (v * (1 - (1 - c) * s) * 255)) (cround (v * 255))).getD old := by
  obtain ⟨e1, e2⟩ := hsv_hi_f hn h0 h1 e
  simp only [hsv_to_rgb, e1, e2]
  cases hsv_switch n (cround (v * (1 - s) * 255)) (cround (v * (1 - c * s) * 255))
    (cround (v * (1 - (1 - c) * s) * 255)) (cround (v * 255)) <;> rfl

lemma hsv_switch_0 (p q t iv : ℤ) : hsv_switch 0 p q t iv = some ⟨iv, t, p⟩ := by
  simp [hsv_switch]

lemma hsv_switch_1 (p q t iv : ℤ) : hsv_switch 1 p q t iv = some ⟨q, iv, p⟩ := by
  simp [hsv_switch]

lemma hsv_switch_2 (p q t iv : ℤ) : hsv_switch 2 p q t iv = some ⟨p, iv, t⟩ := by
  simp [hsv_switch]

lemma hsv_switch_3 (p q t iv : ℤ) : hsv_switch 3 p q t iv = some ⟨p, q, iv⟩ := by
  simp [hsv_switch]

lemma hsv_switch_4 (p q t iv : ℤ) : hsv_switch 4 p q t iv = some ⟨t, p, iv⟩ := by
  simp [hsv_switch]

lemma hsv_switch_5 (p q t iv : ℤ) : hsv_switch 5 p q t iv = some ⟨iv, p, q⟩ := by
  simp [hsv_switch]

/-! ## `hsv_to_rgb` after `rgb_to_hsv` -/

/-- The candidate intensities of `hsv_to_rgb` on the saturation and value
written by `rgb_to_hsv` for a colour with maximum `mx > 0` and minimum `mn`. -/
lemma hsv_cand {mn mx k : ℤ} (F : ℚ) (hmx : 0 < mx)
    (hk : (mx : ℚ) - F * ((mx : ℚ) - mn) = (k : ℚ)) :
    cround ((mx : ℚ) / 255 * (1 - F * (1 - (mn : ℚ) / 255 / ((mx : ℚ) / 255))) * 255) = k := by
  have hq : (mx : ℚ) ≠ 0 := by
    have : (0 : ℚ) < mx := by exact_mod_cast hmx
    exact ne_of_gt this
  have e : (mx : ℚ) / 255 * (1 - F * (1 - (mn : ℚ) / 255 / ((mx : ℚ) / 255))) * 255 =
      (mx : ℚ) - F * ((mx : ℚ) - mn) := by
    field_simp
    ring
  rw [e, hk]
  exact cround_intCast k

lemma hsv_cand_p {mn mx : ℤ} (hmx : 0 < mx) :
    cround ((mx : ℚ) / 255 * (1 - (1 - (mn : ℚ) / 255 / ((mx : ℚ) / 255))) * 255) = mn := by
  have hq : (mx : ℚ) ≠ 0 := by
    have : (0 : ℚ) < mx := by exact_mod_cast hmx
    exact ne_of_gt this
  have e : (mx : ℚ) / 255 * (1 - (1 - (mn : ℚ) / 255 / ((mx : ℚ) / 255))) * 255 = (mn : ℚ) := by
    field_simp
    ring
  rw [e]
  exact cround_intCast mn

lemma hsv_fields_chromatic {r g b mx mn : ℤ} (hmax : max (max r g) b = mx)
    (hmin : min (min r g) b = mn) (hmx : 0 < mx) :
    (rgb_to_hsv r g b).s = 1 - (mn : ℚ) / 255 / ((mx : ℚ) / 255) ∧
      (rgb_to_hsv r g b).v = (mx : ℚ) / 255 := by
  have hne : ¬ mx = 0 := by omega
  simp only [rgb_to_hsv, hmax, hmin, hne, if_false, and_self]

lemma hsv_gray (k : ℤ) : rgb_to_hsv k k k = ⟨0, 0, (k : ℚ) / 255⟩ := by
  by_cases hk : k = 0
  · subst hk
    simp [rgb_to_hsv]
  · have hq : (k : ℚ) ≠ 0 := by exact_mod_cast hk
    simp [rgb_to_hsv, hk, hq]

lemma hsv_round_trip_exact (r g b : ℤ) (hr : 0 ≤ r ∧ r ≤ 255) (hg : 0 ≤ g ∧ g ≤ 255)
    (hb : 0 ≤ b ∧ b ≤ 255) (old : Rgb) :
    hsv_to_rgb (rgb_to_hsv r g b).h (rgb_to_hsv r g b).s (rgb_to_hsv r g b).v old =
      ⟨r, g, b⟩ := by
  rcases rgb_cases r g b with h | h | h | h | h | h | h
  · obtain ⟨h1, h2⟩ := h
    subst h1
    subst h2
    rw [hsv_gray]
    simp only []
    rw [hsv_to_rgb_sector (n := 0) (c := 0) _ _ _ (le_refl 0) (le_refl 0) (by norm_num)
      (by norm_num), hsv_switch_0, Option.getD_some]
    have e1 : (r : ℚ) / 255 * (1 - 0) * 255 = (r : ℚ) / 255 * 255 := by ring
    have e2 : (r : ℚ) / 255 * (1 - (1 - 0) * 0) * 255 = (r : ℚ) / 255 * 255 := by ring
    rw [e1, e2, cround_chan]
  · obtain ⟨h1, h2, h3⟩ := h
    have hmx : 0 < r := by omega
    obtain ⟨es, ev⟩ := hsv_fields_chromatic (by omega : max (max r g) b = r)
      (by omega : min (min r g) b = b) hmx
    have hc := ratio_mul (u := g) (w := b) h3
    rw [hsv_hue_eq, hue_red_up h1 h2 h3, es, ev]
    by_cases hgr : g = r
    · subst hgr
      have hb' : (b : ℚ) < g := by exact_mod_cast h3
      have c1 : ((g : ℚ) - b) / ((g : ℚ) - b) = 1 := div_self (by linarith)
      rw [c1, hsv_to_rgb_sector (n := 1) (c := 0) _ _ _ (by norm_num) (le_refl 0)
        (by norm_num) (by norm_num), hsv_switch_1, Option.getD_some, cround_chan,
        hsv_cand_p hmx, hsv_cand 0 hmx (by ring)]
    · have hlt := ratio_lt_one (by omega : g - b < r - b) h3
      have hnn := (ratio_mem h1 (by omega : g - b ≤ r - b) h3).1
      rw [hsv_to_rgb_sector (n := 0) _ _ _ (le_refl 0) hnn hlt (by push_cast; ring),
        hsv_switch_0, Option.getD_some, cround_chan, hsv_cand_p hmx,
        hsv_cand (k := g) _ hmx (by linear_combination hc)]
  · obtain ⟨h1, h2⟩ := h
    have h3 : g < r := by omega
    have hmx : 0 < r := by omega
    obtain ⟨es, ev⟩ := hsv_fields_chromatic (by omega : max (max r g) b = r)
      (by omega : min (min r g) b = g) hmx
    have hc := ratio_mul (u := b) (w := g) h3
    have hpos := ratio_pos h1 h3
    have hle := (ratio_mem h1.le (by omega : b - g ≤ r - g) h3).2
    rw [hsv_hue_eq, hue_red_down h1 h2, es, ev,
      hsv_to_rgb_sector (n := 5) (c := 1 - ((b : ℚ) - g) / ((r : ℚ) - g)) _ _ _ (by norm_num)
        (by linarith) (by linarith) (by push_cast; ring),
      hsv_switch_5, Option.getD_some, cround_chan, hsv_cand_p hmx,
      hsv_cand (k := b) _ hmx (by linear_combination hc)]
  · obtain ⟨h1, h2⟩ := h
    have h3 : b < g := by omega
    have hmx : 0 < g := by omega
    obtain ⟨es, ev⟩ := hsv_fields_chromatic (by omega : max (max r g) b = g)
      (by omega : min (min r g) b = b) hmx
    have hc := ratio_mul (u := r) (w := b) h3
    have hpos := ratio_pos h1 h3
    have hlt := ratio_lt_one (by omega : r - b < g - b) h3
    rw [hsv_hue_eq, hue_green_down h1 h2, es, ev,
      hsv_to_rgb_sector (n := 1) (c := 1 - ((r : ℚ) - b) / ((g : ℚ) - b)) _ _ _ (by norm_num)
        (by linarith) (by linarith) (by push_cast; ring),
      hsv_switch_1, Option.getD_some, cround_chan, hsv_cand_p hmx,
      hsv_cand (k := r) _ hmx (by linear_combination hc)]
  · obtain ⟨h1, h2, h3⟩ := h
    have hmx : 0 < g := by omega
    obtain ⟨es, ev⟩ := hsv_fields_chromatic (by omega : max (max r g) b = g)
      (by omega : min (min r g) b = r) hmx
    have hc := ratio_mul (u := b) (w := r) h3
    rw [hsv_hue_eq, hue_green_up h1 h2 h3, es, ev]
    by_cases hbg : b = g
    · subst hbg
      have hr' : (r : ℚ) < b := by exact_mod_cast h3
      have c1 : ((b : ℚ) - r) / ((b : ℚ) - r) = 1 := div_self (by linarith)
      rw [c1, hsv_to_rgb_sector (n := 3) (c := 0) _ _ _ (by norm_num) (le_refl 0)
        (by norm_num) (by norm_num), hsv_switch_3, Option.getD_some, cround_chan,
        hsv_cand_p hmx, hsv_cand 0 hmx (by ring)]
    · have hlt := ratio_lt_one (by omega : b - r < g - r) h3
      have hnn := (ratio_mem h1 (by omega : b - r ≤ g - r) h3).1
      rw [hsv_to_rgb_sector (n := 2) _ _ _ (by norm_num) hnn hlt (by push_cast; ring),
        hsv_switch_2, Option.getD_some, cround_chan, hsv_cand_p hmx,
        hsv_cand (k := b) _ hmx (by linear_combination hc)]
  · obtain ⟨h1, h2⟩ := h
    have h3 : r < b := by omega
    have hmx : 0 < b := by omega
    obtain ⟨es, ev⟩ := hsv_fields_chromatic (by omega : max (max r g) b = b)
      (by omega : min (min r g) b = r) hmx
    have hc := ratio_mul (u := g) (w := r) h3
    have hpos := ratio_pos h1 h3
    have hlt := ratio_lt_one (by omega : g - r < b - r) h3
    rw [hsv_hue_eq, hue_blue_down h1 h2, es, ev,
      hsv_to_rgb_sector (n := 3) (c := 1 - ((g : ℚ) - r) / ((b : ℚ) - r)) _ _ _ (by norm_num)
        (by linarith) (by linarith) (by push_cast; ring),
      hsv_switch_3, Option.getD_some, cround_chan, hsv_cand_p hmx,
      hsv_cand (k := g) _ hmx (by linear_combination hc)]
  · obtain ⟨h1, h2⟩ := h
    have h3 : g < b := by omega
    have hmx : 0 < b := by omega
    obtain ⟨es, ev⟩ := hsv_fields_chromatic (by omega : max (max r g) b = b)
      (by omega : min (min r g) b = g) hmx
    have hc := ratio_mul (u := r) (w := g) h3
    have hlt := ratio_lt_one (by omega : r - g < b - g) h3
    have hnn := (ratio_mem h1 (by omega : r - g ≤ b - g) h3).1
    rw [hsv_hue_eq, hue_blue_up h1 h2, es, ev,
      hsv_to_rgb_sector (n := 4) _ _ _ (by norm_num) hnn hlt (by push_cast; ring),
      hsv_switch_4, Option.getD_some, cround_chan, hsv_cand_p hmx,
      hsv_cand (k := r) _ hmx (by linear_combination hc)]

/-! ## Ranges of saturation, lightness and value -/

lemma extrema_bounds (r g b : ℤ) (hr : 0 ≤ r ∧ r ≤ 255) (hg : 0 ≤ g ∧ g ≤ 255)
    (hb : 0 ≤ b ∧ b ≤ 255) :
    (0 : ℚ) ≤ ((min (min r g) b : ℤ) : ℚ) / 255 ∧
      ((min (min r g) b : ℤ) : ℚ) / 255 ≤ ((max (max r g) b : ℤ) : ℚ) / 255 ∧
      ((max (max r g) b : ℤ) : ℚ) / 255 ≤ 1 := by
  have hmn : 0 ≤ min (min r g) b := by omega
  have hmx : max (max r g) b ≤ 255 := by omega
  have hle : min (min r g) b ≤ max (max r g) b := by omega
  refine ⟨div_nonneg (by exact_mod_cast hmn) (by norm_num), ?_, ?_⟩
  · apply div_le_div_of_nonneg_right _ (by norm_num)
    exact_mod_cast hle
  · rw [div_le_one (by norm_num)]
    exact_mod_cast hmx

lemma hsl_sl_range (r g b : ℤ) (hr : 0 ≤ r ∧ r ≤ 255) (hg : 0 ≤ g ∧ g ≤ 255)
    (hb : 0 ≤ b ∧ b ≤ 255) :
    (0 ≤ (rgb_to_hsl r g b).s ∧ (rgb_to_hsl r g b).s ≤ 1) ∧
      (0 ≤ (rgb_to_hsl r g b).l ∧ (rgb_to_hsl r g b).l ≤ 1) := by
  obtain ⟨a0, a1, a2⟩ := extrema_bounds r g b hr hg hb
  simp only [rgb_to_hsl]
  refine ⟨?_, by linarith, by linarith⟩
  by_cases he : max (max r g) b = min (min r g) b
  · rw [if_pos he]
    norm_num
  · rw [if_neg he]
    apply hsl_sat_bounds a0 _ a2
    apply lt_of_le_of_ne a1
    intro hq
    apply he
    have := (div_left_inj' (by norm_num : (255 : ℚ) ≠ 0)).mp hq
    exact_mod_cast this.symm

lemma hsv_sv_range (r g b : ℤ) (hr : 0 ≤ r ∧ r ≤ 255) (hg : 0 ≤ g ∧ g ≤ 255)
    (hb : 0 ≤ b ∧ b ≤ 255) :
    (0 ≤ (rgb_to_hsv r g b).s ∧ (rgb_to_hsv r g b).s ≤ 1) ∧
      (0 ≤ (rgb_to_hsv r g b).v ∧ (rgb_to_hsv r g b).v ≤ 1) := by
  obtain ⟨a0, a1, a2⟩ := extrema_bounds r g b hr hg hb
  simp only [rgb_to_hsv]
  refine ⟨?_, by linarith, by linarith⟩
  by_cases he : max (max r g) b = 0
  · rw [if_pos he]
    norm_num
  · rw [if_neg he]
    have hpos : (0 : ℚ) < ((max (max r g) b : ℤ) : ℚ) / 255 := by
      apply div_pos _ (by norm_num)
      have : 0 < max (max r g) b := by omega
      exact_mod_cast this
    have h1 := div_nonneg a0 hpos.le
    have h2 := (div_le_one hpos).mpr a1
    constructor <;> linarith

/-! ## Output range of `hsl_to_rgb` -/

lemma cround_range {x : ℚ} (h0 : 0 ≤ x) (h1 : x ≤ 255) : 0 ≤ cround x ∧ cround x ≤ 255 :=
  ⟨cround_nonneg h0, cround_le_of_le h0 (by exact_mod_cast h1)⟩

lemma hsl_pq_order {s l : ℚ} (hs : 0 ≤ s ∧ s ≤ 1) (hl : 0 ≤ l ∧ l ≤ 1) :
    0 ≤ hsl_p s l ∧ hsl_p s l ≤ hsl_q s l ∧ hsl_q s l ≤ 1 := by
  obtain ⟨s0, s1⟩ := hs
  obtain ⟨l0, l1⟩ := hl
  unfold hsl_p hsl_q
  split_ifs with h
  · refine ⟨?_, ?_, ?_⟩
    · nlinarith [mul_nonneg l0 (sub_nonneg.mpr s1)]
    · nlinarith [mul_nonneg l0 s0]
    · nlinarith [mul_nonneg l0 (sub_nonneg.mpr s1)]
  · have hl' : 0 ≤ 1 - l := by linarith
    refine ⟨?_, ?_, ?_⟩
    · nlinarith [mul_nonneg hl' (sub_nonneg.mpr s1)]
    · nlinarith [mul_nonneg hl' s0]
    · nlinarith [mul_nonneg hl' (sub_nonneg.mpr s1)]

lemma hsl_wrap_range {t : ℚ} (h0 : -1 ≤ t) (h1 : t ≤ 2) :
    0 ≤ hsl_wrap t ∧ hsl_wrap t ≤ 1 := by
  unfold hsl_wrap
  split_ifs <;> constructor <;> linarith

lemma hsl_color_range {p q t : ℚ} (hpq : p ≤ q) (h0 : 0 ≤ t) :
    p ≤ hsl_color p q t ∧ hsl_color p q t ≤ q := by
  have hd : 0 ≤ q - p := by linarith
  rw [hsl_color_eq]
  split_ifs with a b c
  · constructor
    · nlinarith [mul_nonneg hd h0]
    · nlinarith [mul_nonneg hd (by linarith : (0 : ℚ) ≤ 1 / 6 - t)]
  · exact ⟨hpq, le_refl q⟩
  · constructor
    · nlinarith [mul_nonneg hd (by linarith : (0 : ℚ) ≤ 2 / 3 - t)]
    · nlinarith [mul_nonneg hd (by linarith : (0 : ℚ) ≤ t - 1 / 2)]
  · exact ⟨le_refl p, hpq⟩

lemma hsl_chan_range {p q t : ℚ} (hp : 0 ≤ p) (hpq : p ≤ q) (hq : q ≤ 1) (h0 : -1 ≤ t)
    (h1 : t ≤ 2) :
    0 ≤ cround (hsl_color p q (hsl_wrap t) * 255) ∧
      cround (hsl_color p q (hsl_wrap t) * 255) ≤ 255 := by
  obtain ⟨c0, c1⟩ := hsl_color_range hpq (hsl_wrap_range h0 h1).1
  apply cround_range <;> linarith

/-! ## Output range of `hsv_to_rgb` -/

lemma hsv_cand_range {v x : ℚ} (hv : 0 ≤ v ∧ v ≤ 1) (hx : 0 ≤ x ∧ x ≤ 1) :
    0 ≤ cround (v * x * 255) ∧ cround (v * x * 255) ≤ 255 := by
  have h0 : 0 ≤ v * x := mul_nonneg hv.1 hx.1
  have h1 : v * x ≤ 1 := by nlinarith [mul_nonneg hv.1 (sub_nonneg.mpr hx.2)]
  apply cround_range <;> linarith

lemma hsv_iv_range {v : ℚ} (hv : 0 ≤ v ∧ v ≤ 1) :
    0 ≤ cround (v * 255) ∧ cround (v * 255) ≤ 255 := by
  apply cround_range <;> linarith [hv.1, hv.2]

/-- For a hue in `[0, 360)` the sector index is `⌊h / 60⌋`, one of `0, ..., 5`,
and the remainder lies in `[0, 1)`. -/
lemma hsv_sector_valid {h : ℚ} (h0 : 0 ≤ h) (h1 : h < 360) :
    hsv_hi h = ⌊h / 60⌋ ∧ (0 ≤ hsv_hi h ∧ hsv_hi h ≤ 5) ∧ (0 ≤ hsv_f h ∧ hsv_f h < 1) := by
  have hq : 0 ≤ h / 60 := div_nonneg h0 (by norm_num)
  have hi : hsv_hi h = ⌊h / 60⌋ := by
    unfold hsv_hi
    exact ctrunc_eq_floor hq
  have hlt : ⌊h / 60⌋ < 6 := by
    rw [Int.floor_lt]
    push_cast
    rw [div_lt_iff₀ (by norm_num)]
    linarith
  refine ⟨hi, ⟨?_, ?_⟩, ?_, ?_⟩
  · rw [hi]
    exact Int.floor_nonneg.mpr hq
  · rw [hi]
    omega
  · unfold hsv_f
    rw [hi]
    linarith [Int.floor_le (h / 60)]
  · unfold hsv_f
    rw [hi]
    linarith [Int.lt_floor_add_one (h / 60)]

lemma hsv_switch_mem {hi : ℤ} (h0 : 0 ≤ hi) (h5 : hi ≤ 5) (p q t iv : ℤ) (P : ℤ → Prop)
    (hp : P p) (hq : P q) (ht : P t) (hiv : P iv) :
    ∃ out, hsv_switch hi p q t iv = some out ∧ P out.r ∧ P out.g ∧ P out.b := by
  interval_cases hi
  · exact ⟨_, hsv_switch_0 p q t iv, hiv, ht, hp⟩
  · exact ⟨_, hsv_switch_1 p q t iv, hq, hiv, hp⟩
  · exact ⟨_, hsv_switch_2 p q t iv, hp, hiv, ht⟩
  · exact ⟨_, hsv_switch_3 p q t iv, hp, hq, hiv⟩
  · exact ⟨_, hsv_switch_4 p q t iv, ht, hp, hiv⟩
  · exact ⟨_, hsv_switch_5 p q t iv, hiv, hp, hq⟩

lemma hsv_to_rgb_of_some {h s v : ℚ} {out : Rgb}
    (e : hsv_switch (hsv_hi h) (cround (v * (1 - s) * 255))
      (cround (v * (1 - hsv_f h * s) * 255)) (cround (v * (1 - (1 - hsv_f h) * s) * 255))
      (cround (v * 255)) = some out) (old : Rgb) :
    hsv_to_rgb h s v old = out := by
  simp only [hsv_to_rgb, e]

lemma hsv_to_rgb_of_none {h s v : ℚ}
    (e : hsv_switch (hsv_hi h) (cround (v * (1 - s) * 255))
      (cround (v * (1 - hsv_f h * s) * 255)) (cround (v * (1 - (1 - hsv_f h) * s) * 255))
      (cround (v * 255)) = none) (old : Rgb) :
    hsv_to_rgb h s v old = old := by
  simp only [hsv_to_rgb, e]

/-! ## Hue outside `[0, 360)` in `hsv_to_rgb` -/

lemma hsv_hi_out {h : ℚ} (hh : 360 ≤ h ∨ h ≤ -60) : hsv_hi h < 0 ∨ 5 < hsv_hi h := by
  unfold hsv_hi ctrunc
  rcases hh with hh | hh
  · right
    have hq : (6 : ℚ) ≤ h / 60 := by
      rw [le_div_iff₀ (by norm_num)]
      linarith
    rw [if_pos (by linarith)]
    have : (6 : ℤ) ≤ ⌊h / 60⌋ := Int.le_floor.mpr (by exact_mod_cast hq)
    omega
  · left
    have hq : h / 60 ≤ -1 := by
      rw [div_le_iff₀ (by norm_num)]
      linarith
    rw [if_neg (by linarith)]
    have : ⌈h / 60⌉ ≤ (-1 : ℤ) := Int.ceil_le.mpr (by exact_mod_cast hq)
    omega

lemma hsv_switch_none {hi : ℤ} (h : hi < 0 ∨ 5 < hi) (p q t iv : ℤ) :
    hsv_switch hi p q t iv = none := by
  unfold hsv_switch
  split_ifs <;> first | rfl | (exfalso; omega)

/-- For a hue strictly between `-60` and `0` the cast truncates toward zero:
the sector index is `0` and the remainder is negative. -/
lemma hsv_hi_small_negative {h : ℚ} (h0 : -60 < h) (h1 : h < 0) :
    hsv_hi h = 0 ∧ hsv_f h < 0 := by
  have hq1 : h / 60 < 0 := div_neg_of_neg_of_pos h1 (by norm_num)
  have hq0 : -1 < h / 60 := by
    rw [lt_div_iff₀ (by norm_num)]
    linarith
  have hi : hsv_hi h = 0 := by
    unfold hsv_hi ctrunc
    rw [if_neg (by linarith), Int.ceil_eq_iff]
    constructor
    · push_cast
      linarith
    · push_cast
      linarith
  refine ⟨hi, ?_⟩
  unfold hsv_f
  rw [hi]
  push_cast
  linarith

lemma hsl_gray_fields (k : ℤ) :
    (rgb_to_hsl k k k).s = 0 ∧ (rgb_to_hsl k k k).l = (k : ℚ) / 255 := by
  constructor
  · simp [rgb_to_hsl]
  · simp only [rgb_to_hsl, max_self, min_self]
    ring

/-! ## The claims -/

/-- C1 (HSL round trip): for all integers `r`, `g`, `b` in `[0,255]`, feeding the
`(h, s, l)` written by `rgb_to_hsl r g b` into `hsl_to_rgb` yields `(r', g', b')`
with `|r' - r| ≤ 1`, `|g' - g| ≤ 1` and `|b' - b| ≤ 1`, float operations being read
as exact arithmetic and `round` as the nearest integer. -/
theorem hsl_round_trip (r g b : ℤ) (hr : 0 ≤ r ∧ r ≤ 255) (hg : 0 ≤ g ∧ g ≤ 255)
    (hb : 0 ≤ b ∧ b ≤ 255) :
    |(hsl_to_rgb (rgb_to_hsl r g b).h (rgb_to_hsl r g b).s (rgb_to_hsl r g b).l).r - r| ≤ 1 ∧
      |(hsl_to_rgb (rgb_to_hsl r g b).h (rgb_to_hsl r g b).s (rgb_to_hsl r g b).l).g - g| ≤ 1 ∧
      |(hsl_to_rgb (rgb_to_hsl r g b).h (rgb_to_hsl r g b).s (rgb_to_hsl r g b).l).b - b| ≤ 1 := by
  rw [hsl_round_trip_exact r g b hr hg hb]
  simp

theorem hsl_round_trip_witness :
    ((0 : ℤ) ≤ 200 ∧ (200 : ℤ) ≤ 255) ∧ ((0 : ℤ) ≤ 100 ∧ (100 : ℤ) ≤ 255) ∧
      ((0 : ℤ) ≤ 50 ∧ (50 : ℤ) ≤ 255) ∧
      |(hsl_to_rgb (rgb_to_hsl 200 100 50).h (rgb_to_hsl 200 100 50).s
          (rgb_to_hsl 200 100 50).l).r - 200| ≤ 1 ∧
      |(hsl_to_rgb (rgb_to_hsl 200 100 50).h (rgb_to_hsl 200 100 50).s
          (rgb_to_hsl 200 100 50).l).g - 100| ≤ 1 ∧
      |(hsl_to_rgb (rgb_to_hsl 200 100 50).h (rgb_to_hsl 200 100 50).s
          (rgb_to_hsl 200 100 50).l).b - 50| ≤ 1 :=
  ⟨by decide, by decide, by decide,
    hsl_round_trip 200 100 50 (by decide) (by decide) (by decide)⟩

/-- C2 (HSV round trip): for all integers `r`, `g`, `b` in `[0,255]`, feeding the
`(h, s, v)` written by `rgb_to_hsv r g b` into `hsv_to_rgb` yields `(r', g', b')`
with `|r' - r| ≤ 1`, `|g' - g| ≤ 1` and `|b' - b| ≤ 1`, whatever the out-parameters
held before the call; float operations are read as exact arithmetic and `round`
as the nearest integer. -/
theorem hsv_round_trip (r g b : ℤ) (hr : 0 ≤ r ∧ r ≤ 255) (hg : 0 ≤ g ∧ g ≤ 255)
    (hb : 0 ≤ b ∧ b ≤ 255) (old : Rgb) :
    |(hsv_to_rgb (rgb_to_hsv r g b).h (rgb_to_hsv r g b).s (rgb_to_hsv r g b).v old).r - r|
        ≤ 1 ∧
      |(hsv_to_rgb (rgb_to_hsv r g b).h (rgb_to_hsv r g b).s (rgb_to_hsv r g b).v old).g - g|
        ≤ 1 ∧
      |(hsv_to_rgb (rgb_to_hsv r g b).h (rgb_to_hsv r g b).s (rgb_to_hsv r g b).v old).b - b|
        ≤ 1 := by
  rw [hsv_round_trip_exact r g b hr hg hb old]
  simp

theorem hsv_round_trip_witness :
    ((0 : ℤ) ≤ 30 ∧ (30 : ℤ) ≤ 255) ∧ ((0 : ℤ) ≤ 60 ∧ (60 : ℤ) ≤ 255) ∧
      ((0 : ℤ) ≤ 240 ∧ (240 : ℤ) ≤ 255) ∧
      |(hsv_to_rgb (rgb_to_hsv 30 60 240).h (rgb_to_hsv 30 60 240).s
          (rgb_to_hsv 30 60 240).v ⟨7, 7, 7⟩).r - 30| ≤ 1 ∧
      |(hsv_to_rgb (rgb_to_hsv 30 60 240).h (rgb_to_hsv 30 60 240).s
          (rgb_to_hsv 30 60 240).v ⟨7, 7, 7⟩).g - 60| ≤ 1 ∧
      |(hsv_to_rgb (rgb_to_hsv 30 60 240).h (rgb_to_hsv 30 60 240).s
          (rgb_to_hsv 30 60 240).v ⟨7, 7, 7⟩).b - 240| ≤ 1 :=
  ⟨by decide, by decide, by decide,
    hsv_round_trip 30 60 240 (by decide) (by decide) (by decide) ⟨7, 7, 7⟩⟩

/-- C3 (hue range): for all integers `r`, `g`, `b` in `[0,255]`, the hue written by
`rgb_to_hsl` and the hue written by `rgb_to_hsv` both satisfy `0 ≤ h < 360`; the
value `360` is never produced. -/
theorem hue_range (r g b : ℤ) (_hr : 0 ≤ r ∧ r ≤ 255) (_hg : 0 ≤ g ∧ g ≤ 255)
    (_hb : 0 ≤ b ∧ b ≤ 255) :
    (0 ≤ (rgb_to_hsl r g b).h ∧ (rgb_to_hsl r g b).h < 360) ∧
      (0 ≤ (rgb_to_hsv r g b).h ∧ (rgb_to_hsv r g b).h < 360) := by
  refine ⟨hue_mem r g b, ?_⟩
  rw [hsv_hue_eq]
  exact hue_mem r g b

theorem hue_range_witness :
    ((0 : ℤ) ≤ 255 ∧ (255 : ℤ) ≤ 255) ∧ ((0 : ℤ) ≤ 0 ∧ (0 : ℤ) ≤ 255) ∧
      ((0 : ℤ) ≤ 1 ∧ (1 : ℤ) ≤ 255) ∧
      (0 ≤ (rgb_to_hsl 255 0 1).h ∧ (rgb_to_hsl 255 0 1).h < 360) ∧
      (0 ≤ (rgb_to_hsv 255 0 1).h ∧ (rgb_to_hsv 255 0 1).h < 360) :=
  ⟨by decide, by decide, by decide, hue_range 255 0 1 (by decide) (by decide) (by decide)⟩

/-- C4 (achromatic inputs): for every integer `k` in `[0,255]`, `rgb_to_hsl k k k`
gives `s = 0` and `l = k / 255`, and `rgb_to_hsv k k k` gives `s = 0` and
`v = k / 255`; black and white are the cases `k = 0` and `k = 255`. -/
theorem achromatic (k : ℤ) (_hk : 0 ≤ k ∧ k ≤ 255) :
    ((rgb_to_hsl k k k).s = 0 ∧ (rgb_to_hsl k k k).l = (k : ℚ) / 255) ∧
      ((rgb_to_hsv k k k).s = 0 ∧ (rgb_to_hsv k k k).v = (k : ℚ) / 255) := by
  refine ⟨hsl_gray_fields k, ?_⟩
  rw [hsv_gray]
  exact ⟨rfl, rfl⟩

theorem achromatic_witness :
    ((0 : ℤ) ≤ 128 ∧ (128 : ℤ) ≤ 255) ∧
      ((rgb_to_hsl 128 128 128).s = 0 ∧ (rgb_to_hsl 128 128 128).l = ((128 : ℤ) : ℚ) / 255) ∧
      ((rgb_to_hsv 128 128 128).s = 0 ∧ (rgb_to_hsv 128 128 128).v = ((128 : ℤ) : ℚ) / 255) :=
  ⟨by decide, achromatic 128 (by decide)⟩

/-- C6 (`rgb_to_hsv` output range): for all integers `r`, `g`, `b` in `[0,255]`, the
saturation and the value written by `rgb_to_hsv` satisfy `0 ≤ s ≤ 1` and
`0 ≤ v ≤ 1`. -/
theorem rgb_to_hsv_range (r g b : ℤ) (hr : 0 ≤ r ∧ r ≤ 255) (hg : 0 ≤ g ∧ g ≤ 255)
    (hb : 0 ≤ b ∧ b ≤ 255) :
    (0 ≤ (rgb_to_hsv r g b).s ∧ (rgb_to_hsv r g b).s ≤ 1) ∧
      (0 ≤ (rgb_to_hsv r g b).v ∧ (rgb_to_hsv r g b).v ≤ 1) :=
  hsv_sv_range r g b hr hg hb

theorem rgb_to_hsv_range_witness :
    ((0 : ℤ) ≤ 0 ∧ (0 : ℤ) ≤ 255) ∧ ((0 : ℤ) ≤ 17 ∧ (17 : ℤ) ≤ 255) ∧
      ((0 : ℤ) ≤ 255 ∧ (255 : ℤ) ≤ 255) ∧
      (0 ≤ (rgb_to_hsv 0 17 255).s ∧ (rgb_to_hsv 0 17 255).s ≤ 1) ∧
      (0 ≤ (rgb_to_hsv 0 17 255).v ∧ (rgb_to_hsv 0 17 255).v ≤ 1) :=
  ⟨by decide, by decide, by decide,
    rgb_to_hsv_range 0 17 255 (by decide) (by decide) (by decide)⟩

/-- C7 (`hsl_to_rgb` output range): for every `h` with `0 ≤ h < 360` and every `s`,
`l` in `[0,1]`, each of the integers `r`, `g`, `b` written by `hsl_to_rgb` lies in
`[0,255]`; the function itself applies no clamp. -/
theorem hsl_to_rgb_range (h s l : ℚ) (hh : 0 ≤ h ∧ h < 360) (hs : 0 ≤ s ∧ s ≤ 1)
    (hl : 0 ≤ l ∧ l ≤ 1) :
    (0 ≤ (hsl_to_rgb h s l).r ∧ (hsl_to_rgb h s l).r ≤ 255) ∧
      (0 ≤ (hsl_to_rgb h s l).g ∧ (hsl_to_rgb h s l).g ≤ 255) ∧
      (0 ≤ (hsl_to_rgb h s l).b ∧ (hsl_to_rgb h s l).b ≤ 255) := by
  obtain ⟨p0, pq, q1⟩ := hsl_pq_order hs hl
  have u0 : 0 ≤ h / 360 := div_nonneg hh.1 (by norm_num)
  have u1 : h / 360 < 1 := by
    rw [div_lt_one (by norm_num)]
    exact hh.2
  simp only [hsl_to_rgb]
  exact ⟨hsl_chan_range p0 pq q1 (by linarith) (by linarith),
    hsl_chan_range p0 pq q1 (by linarith) (by linarith),
    hsl_chan_range p0 pq q1 (by linarith) (by linarith)⟩

theorem hsl_to_rgb_range_witness :
    ((0 : ℚ) ≤ 200 ∧ (200 : ℚ) < 360) ∧ ((0 : ℚ) ≤ 1 / 2 ∧ (1 / 2 : ℚ) ≤ 1) ∧
      ((0 : ℚ) ≤ 1 / 4 ∧ (1 / 4 : ℚ) ≤ 1) ∧
      (0 ≤ (hsl_to_rgb 200 (1 / 2) (1 / 4)).r ∧ (hsl_to_rgb 200 (1 / 2) (1 / 4)).r ≤ 255) ∧
      (0 ≤ (hsl_to_rgb 200 (1 / 2) (1 / 4)).g ∧ (hsl_to_rgb 200 (1 / 2) (1 / 4)).g ≤ 255) ∧
      (0 ≤ (hsl_to_rgb 200 (1 / 2) (1 / 4)).b ∧ (hsl_to_rgb 200 (1 / 2) (1 / 4)).b ≤ 255) :=
  ⟨by norm_num, by norm_num, by norm_num,
    hsl_to_rgb_range 200 (1 / 2) (1 / 4) (by norm_num) (by norm_num) (by norm_num)⟩

/-- C8 (`hsv_to_rgb` output range): for every `h` with `0 ≤ h < 360` and every `s`,
`v` in `[0,1]`, each of the integers `r`, `g`, `b` written by `hsv_to_rgb` lies in
`[0,255]`, whatever the out-parameters held before the call. -/
theorem hsv_to_rgb_range (h s v : ℚ) (hh : 0 ≤ h ∧ h < 360) (hs : 0 ≤ s ∧ s ≤ 1)
    (hv : 0 ≤ v ∧ v ≤ 1) (old : Rgb) :
    (0 ≤ (hsv_to_rgb h s v old).r ∧ (hsv_to_rgb h s v old).r ≤ 255) ∧
      (0 ≤ (hsv_to_rgb h s v old).g ∧ (hsv_to_rgb h s v old).g ≤ 255) ∧
      (0 ≤ (hsv_to_rgb h s v old).b ∧ (hsv_to_rgb h s v old).b ≤ 255) := by
  obtain ⟨_, ⟨i0, i5⟩, f0, f1⟩ := hsv_sector_valid hh.1 hh.2
  have hfs0 : 0 ≤ hsv_f h * s := mul_nonneg f0 hs.1
  have hfs1 : hsv_f h * s ≤ 1 := by nlinarith [mul_nonneg f0 (sub_nonneg.mpr hs.2)]
  have hgs0 : 0 ≤ (1 - hsv_f h) * s := mul_nonneg (by linarith) hs.1
  have hgs1 : (1 - hsv_f h) * s ≤ 1 := by
    nlinarith [mul_nonneg (by linarith : 0 ≤ 1 - hsv_f h) (sub_nonneg.mpr hs.2)]
  obtain ⟨out, e, br, bg, bb⟩ :=
    hsv_switch_mem i0 i5 (cround (v * (1 - s) * 255)) (cround (v * (1 - hsv_f h * s) * 255))
      (cround (v * (1 - (1 - hsv_f h) * s) * 255)) (cround (v * 255))
      (fun z => 0 ≤ z ∧ z ≤ 255)
      (hsv_cand_range hv ⟨by linarith [hs.2], by linarith [hs.1]⟩)
      (hsv_cand_range hv ⟨by linarith, by linarith⟩)
      (hsv_cand_range hv ⟨by linarith, by linarith⟩)
      (hsv_iv_range hv)
  rw [hsv_to_rgb_of_some e old]
  exact ⟨br, bg, bb⟩

theorem hsv_to_rgb_range_witness :
    ((0 : ℚ) ≤ 359 ∧ (359 : ℚ) < 360) ∧ ((0 : ℚ) ≤ 1 ∧ (1 : ℚ) ≤ 1) ∧
      ((0 : ℚ) ≤ 1 ∧ (1 : ℚ) ≤ 1) ∧
      (0 ≤ (hsv_to_rgb 359 1 1 ⟨-5, 300, 7⟩).r ∧ (hsv_to_rgb 359 1 1 ⟨-5, 300, 7⟩).r ≤ 255) ∧
      (0 ≤ (hsv_to_rgb 359 1 1 ⟨-5, 300, 7⟩).g ∧ (hsv_to_rgb 359 1 1 ⟨-5, 300, 7⟩).g ≤ 255) ∧
      (0 ≤ (hsv_to_rgb 359 1 1 ⟨-5, 300, 7⟩).b ∧ (hsv_to_rgb 359 1 1 ⟨-5, 300, 7⟩).b ≤ 255) :=
  ⟨by norm_num, by norm_num, by norm_num,
    hsv_to_rgb_range 359 1 1 (by norm_num) (by norm_num) (by norm_num) ⟨-5, 300, 7⟩⟩

/-- C9 (`hsv_to_rgb` is defined on valid input): for every `h` with `0 ≤ h < 360`, the
sector index `hi = (int)(h / 60)` equals `⌊h / 60⌋` and is one of `0, ..., 5`, the
remainder `f = h / 60 - hi` lies in `[0,1)`, exactly one case label of the switch
equals `hi`, the switch assigns a triple, and so all of `r`, `g`, `b` are assigned:
the result of `hsv_to_rgb` is that triple whatever the out-parameters held before. -/
theorem hsv_to_rgb_defined (h s v : ℚ) (hh : 0 ≤ h ∧ h < 360) :
    hsv_hi h = ⌊h / 60⌋ ∧ (0 ≤ hsv_hi h ∧ hsv_hi h ≤ 5) ∧ (0 ≤ hsv_f h ∧ hsv_f h < 1) ∧
      (∃! k : ℤ, k ∈ [0, 1, 2, 3, 4, 5] ∧ hsv_hi h = k) ∧
      ∃ out : Rgb,
        hsv_switch (hsv_hi h) (cround (v * (1 - s) * 255))
            (cround (v * (1 - hsv_f h * s) * 255))
            (cround (v * (1 - (1 - hsv_f h) * s) * 255)) (cround (v * 255)) = some out ∧
          ∀ old : Rgb, hsv_to_rgb h s v old = out := by
  obtain ⟨e, ⟨i0, i5⟩, hf⟩ := hsv_sector_valid hh.1 hh.2
  refine ⟨e, ⟨i0, i5⟩, hf, ?_, ?_⟩
  · refine ⟨hsv_hi h, ⟨?_, rfl⟩, fun y hy => hy.2.symm⟩
    generalize hsv_hi h = n at i0 i5
    interval_cases n <;> simp
  · obtain ⟨out, e, _⟩ :=
      hsv_switch_mem i0 i5 (cround (v * (1 - s) * 255)) (cround (v * (1 - hsv_f h * s) * 255))
        (cround (v * (1 - (1 - hsv_f h) * s) * 255)) (cround (v * 255)) (fun _ => True)
        trivial trivial trivial trivial
    exact ⟨out, e, fun old => hsv_to_rgb_of_some e old⟩

theorem hsv_to_rgb_defined_witness :
    ((0 : ℚ) ≤ 150 ∧ (150 : ℚ) < 360) ∧
      hsv_hi 150 = ⌊(150 : ℚ) / 60⌋ ∧ (0 ≤ hsv_hi 150 ∧ hsv_hi 150 ≤ 5) ∧
      (0 ≤ hsv_f 150 ∧ hsv_f 150 < 1) ∧
      (∃! k : ℤ, k ∈ [0, 1, 2, 3, 4, 5] ∧ hsv_hi 150 = k) ∧
      ∃ out : Rgb,
        hsv_switch (hsv_hi 150) (cround (1 * (1 - 1 / 2) * 255))
            (cround (1 * (1 - hsv_f 150 * (1 / 2)) * 255))
            (cround (1 * (1 - (1 - hsv_f 150) * (1 / 2)) * 255)) (cround (1 * 255)) = some out ∧
          ∀ old : Rgb, hsv_to_rgb 150 (1 / 2) 1 old = out :=
  ⟨by norm_num, hsv_to_rgb_defined 150 (1 / 2) 1 (by norm_num)⟩

/-- C10, as amended (`hsv_to_rgb` out-of-range hue): for every `h` that is exactly
`360` or negative (and any `s`, `v`), the sector index `hi` falls outside
`0, ..., 5` exactly when `h = 360` or `h ≤ -60`; in that case no switch case matches
and the out-parameters `r`, `g`, `b` keep the values they held before the call.
For `-60 < h < 0` the cast truncates toward zero, `hi = 0`, and case `0` assigns
`r = iv`, `g = t`, `b = p`. -/
theorem hsv_to_rgb_out_of_range (h s v : ℚ) (hh : h = 360 ∨ h < 0) (old : Rgb) :
    ((hsv_hi h < 0 ∨ 5 < hsv_hi h) ↔ (h = 360 ∨ h ≤ -60)) ∧
      ((h = 360 ∨ h ≤ -60) →
        hsv_switch (hsv_hi h) (cround (v * (1 - s) * 255))
            (cround (v * (1 - hsv_f h * s) * 255))
            (cround (v * (1 - (1 - hsv_f h) * s) * 255)) (cround (v * 255)) = none ∧
          hsv_to_rgb h s v old = old) ∧
      (-60 < h ∧ h < 0 →
        hsv_hi h = 0 ∧
          hsv_to_rgb h s v old =
            ⟨cround (v * 255), cround (v * (1 - (1 - hsv_f h) * s) * 255),
              cround (v * (1 - s) * 255)⟩) := by
  have far : h = 360 ∨ h ≤ -60 → hsv_hi h < 0 ∨ 5 < hsv_hi h := by
    intro hf
    apply hsv_hi_out
    rcases hf with hf | hf
    · left
      rw [hf]
    · right
      exact hf
  refine ⟨⟨?_, far⟩, ?_, ?_⟩
  · intro ho
    by_cases hs : h ≤ -60
    · exact Or.inr hs
    · rcases hh with hh | hh
      · exact Or.inl hh
      · have hz := (hsv_hi_small_negative (not_le.mp hs) hh).1
        omega
  · intro hf
    have e := hsv_switch_none (far hf) (cround (v * (1 - s) * 255))
      (cround (v * (1 - hsv_f h * s) * 255)) (cround (v * (1 - (1 - hsv_f h) * s) * 255))
      (cround (v * 255))
    exact ⟨e, hsv_to_rgb_of_none e old⟩
  · intro hn
    have hz := (hsv_hi_small_negative hn.1 hn.2).1
    refine ⟨hz, hsv_to_rgb_of_some ?_ old⟩
    rw [hz, hsv_switch_0]

theorem hsv_to_rgb_out_of_range_witness :
    ((360 : ℚ) = 360 ∨ (360 : ℚ) < 0) ∧
      ((hsv_hi 360 < 0 ∨ 5 < hsv_hi 360) ↔ ((360 : ℚ) = 360 ∨ (360 : ℚ) ≤ -60)) ∧
      (((360 : ℚ) = 360 ∨ (360 : ℚ) ≤ -60) →
        hsv_switch (hsv_hi 360) (cround (1 * (1 - 1) * 255))
            (cround (1 * (1 - hsv_f 360 * 1) * 255))
            (cround (1 * (1 - (1 - hsv_f 360) * 1) * 255)) (cround (1 * 255)) = none ∧
          hsv_to_rgb 360 1 1 ⟨7, 8, 9⟩ = ⟨7, 8, 9⟩) ∧
      ((-60 : ℚ) < 360 ∧ (360 : ℚ) < 0 →
        hsv_hi 360 = 0 ∧
          hsv_to_rgb 360 1 1 ⟨7, 8, 9⟩ =
            ⟨cround (1 * 255), cround (1 * (1 - (1 - hsv_f 360) * 1) * 255),
              cround (1 * (1 - 1) * 255)⟩) :=
  ⟨Or.inl rfl, hsv_to_rgb_out_of_range 360 1 1 (Or.inl rfl) ⟨7, 8, 9⟩⟩

/-- C10, counterexample to the claim as stated: the hue `h = -30` is negative, yet
`(int)(-30 / 60)` truncates toward zero to `hi = 0`, case `0` of the switch
matches, and the out-parameters `(7, 7, 7)` are overwritten with `(255, 255, 255)`
(here `s = 0`, `v = 1`). -/
theorem hsv_to_rgb_negative_hue_assigns :
    ((-30 : ℚ) = 360 ∨ (-30 : ℚ) < 0) ∧ hsv_hi (-30) = 0 ∧
      hsv_to_rgb (-30) 0 1 ⟨7, 7, 7⟩ = ⟨255, 255, 255⟩ ∧
      hsv_to_rgb (-30) 0 1 ⟨7, 7, 7⟩ ≠ ⟨7, 7, 7⟩ := by
  have hi : hsv_hi (-30) = 0 :=
    (hsv_hi_small_negative (by norm_num : (-60 : ℚ) < -30) (by norm_num)).1
  have c : cround (255 : ℚ) = 255 := by
    have := cround_intCast 255
    exact_mod_cast this
  have ev : hsv_to_rgb (-30) 0 1 ⟨7, 7, 7⟩ = ⟨255, 255, 255⟩ := by
    simp only [hsv_to_rgb, hi, hsv_switch_0, mul_zero, sub_zero, one_mul, c]
  refine ⟨Or.inr (by norm_num), hi, ev, ?_⟩
  rw [ev]
  decide

/-- C11 (primary colours): `rgb_to_hsl` maps `(255,0,0)`, `(0,255,0)`, `(0,0,255)` to
`h = 0, 120, 240` respectively, each with `s = 1` and `l = 1/2`; `rgb_to_hsv` maps the
same three inputs to `h = 0, 120, 240` respectively, each with `s = 1` and `v = 1`. -/
theorem primary_colours :
    (rgb_to_hsl 255 0 0 = ⟨0, 1, 1 / 2⟩ ∧ rgb_to_hsl 0 255 0 = ⟨120, 1, 1 / 2⟩ ∧
        rgb_to_hsl 0 0 255 = ⟨240, 1, 1 / 2⟩) ∧
      (rgb_to_hsv 255 0 0 = ⟨0, 1, 1⟩ ∧ rgb_to_hsv 0 255 0 = ⟨120, 1, 1⟩ ∧
        rgb_to_hsv 0 0 255 = ⟨240, 1, 1⟩) := by
  have m1 : max (max (255 : ℤ) 0) 0 = 255 := by decide
  have m2 : max (max (0 : ℤ) 255) 0 = 255 := by decide
  have m3 : max (max (0 : ℤ) 0) 255 = 255 := by decide
  have n1 : min (min (255 : ℤ) 0) 0 = 0 := by decide
  have n2 : min (min (0 : ℤ) 255) 0 = 0 := by decide
  have n3 : min (min (0 : ℤ) 0) 255 = 0 := by decide
  refine ⟨⟨?_, ?_, ?_⟩, ?_, ?_, ?_⟩
  · simp only [rgb_to_hsl, m1, n1]
    norm_num
  · simp only [rgb_to_hsl, m2, n2]
    norm_num
  · simp only [rgb_to_hsl, m3, n3]
    norm_num
  · simp only [rgb_to_hsv, m1, n1]
    norm_num
  · simp only [rgb_to_hsv, m2, n2]
    norm_num
  · simp only [rgb_to_hsv, m3, n3]
    norm_num

/-- C13 (shared hue): for all integers `r`, `g`, `b`, in particular all of
`[0,255]^3`, the hue written by `rgb_to_hsv r g b` equals the hue written by
`rgb_to_hsl r g b`. -/
theorem shared_hue (r g b : ℤ) : (rgb_to_hsv r g b).h = (rgb_to_hsl r g b).h := by
  simp only [rgb_to_hsv, rgb_to_hsl]

/-! ## Divisors -/

lemma checked_div_of_ne (x : ℚ) {y : ℚ} (hy : y ≠ 0) : checked_div x y = some (x / y) := by
  unfold checked_div
  rw [if_neg hy]

lemma checked_div_zero (x : ℚ) : checked_div x 0 = none := by
  unfold checked_div
  rw [if_pos rfl]

lemma checked_div_255 (x : ℚ) : checked_div x 255 = some (x / 255) :=
  checked_div_of_ne x (by norm_num)

lemma rgb_to_hsl_checked_eq (r g b : ℤ) (hr : 0 ≤ r ∧ r ≤ 255) (hg : 0 ≤ g ∧ g ≤ 255)
    (hb : 0 ≤ b ∧ b ≤ 255) : rgb_to_hsl_checked r g b = some (rgb_to_hsl r g b) := by
  obtain ⟨a0, a1, a2⟩ := extrema_bounds r g b hr hg hb
  simp only [rgb_to_hsl_checked, rgb_to_hsl, checked_div_255, bind, Option.bind, pure]
  by_cases he : min (min r g) b = max (max r g) b
  · simp only [he, if_true]
  · have he2 : ¬ max (max r g) b = min (min r g) b := fun h => he h.symm
    have hlt : ((min (min r g) b : ℤ) : ℚ) / 255 < ((max (max r g) b : ℤ) : ℚ) / 255 := by
      apply lt_of_le_of_ne a1
      intro hq
      apply he
      have := (div_left_inj' (by norm_num : (255 : ℚ) ≠ 0)).mp hq
      exact_mod_cast this
    simp only [he, he2, if_false]
    rw [checked_div_of_ne 60 (by linarith [hlt] : ((max (max r g) b : ℤ) : ℚ) / 255 -
      ((min (min r g) b : ℤ) : ℚ) / 255 ≠ 0)]
    by_cases hl : 1 / 2 * (((max (max r g) b : ℤ) : ℚ) / 255 +
        ((min (min r g) b : ℤ) : ℚ) / 255) ≤ 1 / 2
    · simp only [hl, if_true]
      rw [checked_div_of_ne _ (by linarith : 2 * (1 / 2 * (((max (max r g) b : ℤ) : ℚ) / 255 +
        ((min (min r g) b : ℤ) : ℚ) / 255)) ≠ 0)]
    · simp only [hl, if_false]
      rw [checked_div_of_ne _ (by linarith : 2 - 2 * (1 / 2 *
        (((max (max r g) b : ℤ) : ℚ) / 255 + ((min (min r g) b : ℤ) : ℚ) / 255)) ≠ 0)]

lemma rgb_to_hsv_checked_eq (r g b : ℤ) (hr : 0 ≤ r ∧ r ≤ 255) (hg : 0 ≤ g ∧ g ≤ 255)
    (hb : 0 ≤ b ∧ b ≤ 255) : rgb_to_hsv_checked r g b = some (rgb_to_hsv r g b) := by
  obtain ⟨a0, a1, a2⟩ := extrema_bounds r g b hr hg hb
  by_cases hz : max (max r g) b = 0
  · have mn0 : min (min r g) b = 0 := by omega
    simp only [rgb_to_hsv_checked, rgb_to_hsv, checked_div_255, bind, Option.bind, pure, hz,
      mn0, if_true]
  · have hq : (((max (max r g) b : ℤ) : ℚ) / 255) ≠ 0 := by
      have : ((max (max r g) b : ℤ) : ℚ) ≠ 0 := by exact_mod_cast hz
      exact div_ne_zero this (by norm_num)
    have hdiv : ∀ x : ℚ, checked_div x (((max (max r g) b : ℤ) : ℚ) / 255) =
        some (x / (((max (max r g) b : ℤ) : ℚ) / 255)) := fun x => checked_div_of_ne x hq
    by_cases he : min (min r g) b = max (max r g) b
    · simp only [rgb_to_hsv_checked, rgb_to_hsv, checked_div_255, bind, Option.bind, pure, hz,
        he, hdiv, if_true, if_false]
    · have hlt : ((min (min r g) b : ℤ) : ℚ) / 255 < ((max (max r g) b : ℤ) : ℚ) / 255 := by
        apply lt_of_le_of_ne a1
        intro hq
        apply he
        have := (div_left_inj' (by norm_num : (255 : ℚ) ≠ 0)).mp hq
        exact_mod_cast this
      have hd : ((max (max r g) b : ℤ) : ℚ) / 255 - ((min (min r g) b : ℤ) : ℚ) / 255 ≠ 0 := by
        linarith [hlt]
      have hdiv2 : ∀ x : ℚ, checked_div x (((max (max r g) b : ℤ) : ℚ) / 255 -
          ((min (min r g) b : ℤ) : ℚ) / 255) =
          some (x / (((max (max r g) b : ℤ) : ℚ) / 255 - ((min (min r g) b : ℤ) : ℚ) / 255)) :=
        fun x => checked_div_of_ne x hd
      simp only [rgb_to_hsv_checked, rgb_to_hsv, checked_div_255, bind, Option.bind, pure, hz,
        he, hdiv, hdiv2, if_false]

/-- Outside the input domain the check is not vacuous: for `(1, 0, -1)` the lightness
is `0` and the division by `2 * l` has a zero divisor. -/
lemma rgb_to_hsl_checked_out_of_domain : rgb_to_hsl_checked 1 0 (-1) = none := by
  have m : max (max (1 : ℤ) 0) (-1) = 1 := by decide
  have n : min (min (1 : ℤ) 0) (-1) = -1 := by decide
  have hne : ¬ ((-1 : ℤ) = 1) := by decide
  have hne2 : ¬ ((1 : ℤ) = -1) := by decide
  have hd : ((1 : ℤ) : ℚ) / 255 - ((-1 : ℤ) : ℚ) / 255 ≠ 0 := by norm_num
  have hl : 2 * (1 / 2 * (((1 : ℤ) : ℚ) / 255 + ((-1 : ℤ) : ℚ) / 255)) = 0 := by norm_num
  have hle : 1 / 2 * (((1 : ℤ) : ℚ) / 255 + ((-1 : ℤ) : ℚ) / 255) ≤ 1 / 2 := by norm_num
  simp only [rgb_to_hsl_checked, checked_div_255, bind, Option.bind, pure, m, n, hne, hne2,
    if_false, checked_div_of_ne 60 hd, hle, if_true, hl, checked_div_zero]

/-- C14 (no division by zero on valid input): for all integers `r`, `g`, `b` in
`[0,255]`, no division executed by `rgb_to_hsl` (by `255`, by `fmax - fmin` in the
multiplier, by `2 * l` when `l ≤ 1/2`, by `2 - 2 * l` when `l > 1/2`) or by
`rgb_to_hsv` (by `255`, by `fmax - fmin`, by `fmax`) has a zero divisor: the versions
of the two functions that check every executed divisor succeed and return what the
functions write. -/
theorem no_division_by_zero (r g b : ℤ) (hr : 0 ≤ r ∧ r ≤ 255) (hg : 0 ≤ g ∧ g ≤ 255)
    (hb : 0 ≤ b ∧ b ≤ 255) :
    rgb_to_hsl_checked r g b = some (rgb_to_hsl r g b) ∧
      rgb_to_hsv_checked r g b = some (rgb_to_hsv r g b) :=
  ⟨rgb_to_hsl_checked_eq r g b hr hg hb, rgb_to_hsv_checked_eq r g b hr hg hb⟩

theorem no_division_by_zero_witness :
    ((0 : ℤ) ≤ 255 ∧ (255 : ℤ) ≤ 255) ∧ ((0 : ℤ) ≤ 255 ∧ (255 : ℤ) ≤ 255) ∧
      ((0 : ℤ) ≤ 254 ∧ (254 : ℤ) ≤ 255) ∧
      rgb_to_hsl_checked 255 255 254 = some (rgb_to_hsl 255 255 254) ∧
      rgb_to_hsv_checked 255 255 254 = some (rgb_to_hsv 255 255 254) :=
  ⟨by decide, by decide, by decide,
    no_division_by_zero 255 255 254 (by decide) (by decide) (by decide)⟩

/-- C16 (exact round trips under exact arithmetic): for all integers `r`, `g`, `b` in
`[0,255]`, `hsl_to_rgb` applied to `rgb_to_hsl r g b` returns exactly `(r, g, b)`, and
`hsv_to_rgb` applied to `rgb_to_hsv r g b` returns exactly `(r, g, b)` whatever the
out-parameters held before, with zero error on every channel, ties and sector
boundaries included. -/
theorem round_trips_exact (r g b : ℤ) (hr : 0 ≤ r ∧ r ≤ 255) (hg : 0 ≤ g ∧ g ≤ 255)
    (hb : 0 ≤ b ∧ b ≤ 255) :
    hsl_to_rgb (rgb_to_hsl r g b).h (rgb_to_hsl r g b).s (rgb_to_hsl r g b).l = ⟨r, g, b⟩ ∧
      ∀ old : Rgb,
        hsv_to_rgb (rgb_to_hsv r g b).h (rgb_to_hsv r g b).s (rgb_to_hsv r g b).v old =
          ⟨r, g, b⟩ :=
  ⟨hsl_round_trip_exact r g b hr hg hb, fun old => hsv_round_trip_exact r g b hr hg hb old⟩

theorem round_trips_exact_witness :
    ((0 : ℤ) ≤ 0 ∧ (0 : ℤ) ≤ 255) ∧ ((0 : ℤ) ≤ 255 ∧ (255 : ℤ) ≤ 255) ∧
      ((0 : ℤ) ≤ 255 ∧ (255 : ℤ) ≤ 255) ∧
      hsl_to_rgb (rgb_to_hsl 0 255 255).h (rgb_to_hsl 0 255 255).s (rgb_to_hsl 0 255 255).l =
        ⟨0, 255, 255⟩ ∧
      ∀ old : Rgb,
        hsv_to_rgb (rgb_to_hsv 0 255 255).h (rgb_to_hsv 0 255 255).s (rgb_to_hsv 0 255 255).v
          old = ⟨0, 255, 255⟩ :=
  ⟨by decide, by decide, by decide,
    round_trips_exact 0 255 255 (by decide) (by decide) (by decide)⟩

/-! ## Extreme channels of `hsv_to_rgb` -/

lemma cround_mono_nonneg {x y : ℚ} (hx : 0 ≤ x) (hxy : x ≤ y) : cround x ≤ cround y := by
  unfold cround
  rw [if_pos hx, if_pos (le_trans hx hxy)]
  exact Int.floor_mono (by linarith)

lemma hsv_switch_extrema {hi : ℤ} (h0 : 0 ≤ hi) (h5 : hi ≤ 5) {p q t iv : ℤ} (hpq : p ≤ q)
    (hqv : q ≤ iv) (hpt : p ≤ t) (htv : t ≤ iv) :
    ∃ out, hsv_switch hi p q t iv = some out ∧ max (max out.r out.g) out.b = iv ∧
      min (min out.r out.g) out.b = p := by
  interval_cases hi
  · exact ⟨_, hsv_switch_0 p q t iv, by dsimp only; omega, by dsimp only; omega⟩
  · exact ⟨_, hsv_switch_1 p q t iv, by dsimp only; omega, by dsimp only; omega⟩
  · exact ⟨_, hsv_switch_2 p q t iv, by dsimp only; omega, by dsimp only; omega⟩
  · exact ⟨_, hsv_switch_3 p q t iv, by dsimp only; omega, by dsimp only; omega⟩
  · exact ⟨_, hsv_switch_4 p q t iv, by dsimp only; omega, by dsimp only; omega⟩
  · exact ⟨_, hsv_switch_5 p q t iv, by dsimp only; omega, by dsimp only; omega⟩

/-! ## Consistency of HSL and HSV -/

lemma round_even_bounds (m : ℚ) :
    (round_even m : ℚ) - 1 / 2 ≤ m ∧ m ≤ (round_even m : ℚ) + 1 / 2 := by
  have h1 := Int.floor_le m
  have h2 := Int.lt_floor_add_one m
  unfold round_even
  split_ifs with a b c
  · constructor <;> linarith
  · push_cast
    constructor <;> linarith
  · constructor <;> linarith
  · push_cast
    constructor <;> linarith

lemma round_even_eq_of_lt {m : ℚ} {n : ℤ} (h1 : (n : ℚ) - 1 / 2 < m) (h2 : m < (n : ℚ) + 1 / 2) :
    round_even m = n := by
  obtain ⟨b1, b2⟩ := round_even_bounds m
  have c1 : ((round_even m : ℤ) : ℚ) < ((n + 1 : ℤ) : ℚ) := by
    push_cast
    linarith
  have c2 : ((n : ℤ) : ℚ) < ((round_even m + 1 : ℤ) : ℚ) := by
    push_cast
    linarith
  have d1 : round_even m < n + 1 := by exact_mod_cast c1
  have d2 : n < round_even m + 1 := by exact_mod_cast c2
  omega

lemma round_even_intCast (n : ℤ) : round_even (n : ℚ) = n :=
  round_even_eq_of_lt (by linarith) (by linarith)

lemma round_even_mono {a b : ℚ} (h : a ≤ b) : round_even a ≤ round_even b := by
  by_contra hlt
  have hlt2 : round_even b + 1 ≤ round_even a := by omega
  have hq : ((round_even b : ℤ) : ℚ) + 1 ≤ (round_even a : ℚ) := by exact_mod_cast hlt2
  obtain ⟨a1, a2⟩ := round_even_bounds a
  obtain ⟨b1, b2⟩ := round_even_bounds b
  have e : a = b := by linarith
  rw [e] at hlt
  exact hlt (le_refl _)

lemma round_even_half (n : ℤ) :
    round_even ((n : ℚ) + 1 / 2) = if n % 2 = 0 then n else n + 1 := by
  have hf : ⌊(n : ℚ) + 1 / 2⌋ = n := by
    rw [Int.floor_eq_iff]
    constructor <;> linarith
  unfold round_even
  rw [hf]
  have e : (n : ℚ) + 1 / 2 - n = 1 / 2 := by ring
  rw [e]
  simp

lemma log2_eq {x : ℚ} {e : ℤ} (h1 : (2 : ℚ) ^ e ≤ x) (h2 : x < (2 : ℚ) ^ (e + 1)) :
    Int.log 2 x = e := by
  have hx : 0 < x := lt_of_lt_of_le (zpow_pos (by norm_num) e) h1
  have a : e ≤ Int.log 2 x := (Int.zpow_le_iff_le_log (by norm_num) hx).mp (by exact_mod_cast h1)
  have b : Int.log 2 x < e + 1 :=
    (Int.lt_zpow_iff_log_lt (by norm_num) hx).mp (by exact_mod_cast h2)
  omega

lemma log2_le {x : ℚ} (hx : 0 < x) : (2 : ℚ) ^ Int.log 2 x ≤ x := by
  have := Int.zpow_log_le_self (b := 2) (by norm_num) hx
  exact_mod_cast this

lemma log2_lt (x : ℚ) : x < (2 : ℚ) ^ (Int.log 2 x + 1) := by
  have := Int.lt_zpow_succ_log_self (b := 2) (by norm_num) x
  exact_mod_cast this

lemma fl_ulp_pos (p : ℕ) (emin : ℤ) (x : ℚ) : 0 < fl_ulp p emin x := by
  unfold fl_ulp
  exact zpow_pos (by norm_num) _

lemma fl_pos_zero (p : ℕ) (emin : ℤ) : fl_pos p emin 0 = 0 := by
  unfold fl_pos
  rw [zero_div]
  have := round_even_intCast 0
  simp only [Int.cast_zero] at this
  rw [this]
  simp

lemma fl_pos_nonneg (p : ℕ) (emin : ℤ) {x : ℚ} (hx : 0 ≤ x) : 0 ≤ fl_pos p emin x := by
  unfold fl_pos
  apply mul_nonneg _ (fl_ulp_pos p emin x).le
  have h0 : round_even 0 ≤ round_even (x / fl_ulp p emin x) :=
    round_even_mono (div_nonneg hx (fl_ulp_pos p emin x).le)
  have := round_even_intCast 0
  simp only [Int.cast_zero] at this
  rw [this] at h0
  exact_mod_cast h0

/-- A positive number that is an integer multiple of its own spacing is not changed. -/
lemma fl_pos_of_int {p : ℕ} {emin : ℤ} {x : ℚ} {n : ℤ} (h : x = (n : ℚ) * fl_ulp p emin x) :
    fl_pos p emin x = x := by
  have hu := fl_ulp_pos p emin x
  have e : x / fl_ulp p emin x = (n : ℚ) := by
    rw [div_eq_iff (ne_of_gt hu)]
    exact h
  unfold fl_pos
  rw [e, round_even_intCast]
  exact h.symm

lemma ulp_mul_pow (E : ℤ) (p : ℕ) :
    (((2 : ℤ) ^ p : ℤ) : ℚ) * (2 : ℚ) ^ (E - ((p : ℤ) - 1)) = (2 : ℚ) ^ (E + 1) := by
  push_cast
  rw [← zpow_natCast, ← zpow_add₀ (by norm_num : (2 : ℚ) ≠ 0)]
  congr 1
  ring

lemma ulp_mul_pow_pred (E : ℤ) {p : ℕ} (hp : 1 ≤ p) :
    (((2 : ℤ) ^ (p - 1) : ℤ) : ℚ) * (2 : ℚ) ^ (E - ((p : ℤ) - 1)) = (2 : ℚ) ^ E := by
  push_cast
  rw [← zpow_natCast, ← zpow_add₀ (by norm_num : (2 : ℚ) ≠ 0), Nat.cast_sub hp]
  congr 1
  push_cast
  ring

lemma fl_pos_mono {p : ℕ} (hp : 1 ≤ p) (emin : ℤ) {x y : ℚ} (hx : 0 ≤ x) (hxy : x ≤ y) :
    fl_pos p emin x ≤ fl_pos p emin y := by
  rcases hx.eq_or_lt with h0 | hx0
  · rw [← h0, fl_pos_zero]
    exact fl_pos_nonneg p emin (le_trans hx hxy)
  have hy0 : 0 < y := lt_of_lt_of_le hx0 hxy
  have hlog : Int.log 2 x ≤ Int.log 2 y := Int.log_mono_right hx0 hxy
  have hux := fl_ulp_pos p emin x
  have huy := fl_ulp_pos p emin y
  rcases (max_le_max hlog (le_refl emin)).eq_or_lt with he | he
  · have hu : fl_ulp p emin x = fl_ulp p emin y := by
      unfold fl_ulp
      rw [he]
    unfold fl_pos
    rw [hu]
    apply mul_le_mul_of_nonneg_right _ huy.le
    have := round_even_mono (div_le_div_of_nonneg_right hxy huy.le)
    exact_mod_cast this
  · have hEy : max (Int.log 2 y) emin = Int.log 2 y := by
      apply max_eq_left
      by_contra hc
      have h1 : max (Int.log 2 y) emin = emin := max_eq_right (by omega)
      have h2 : emin ≤ max (Int.log 2 x) emin := le_max_right _ _
      omega
    have hEx : Int.log 2 x + 1 ≤ max (Int.log 2 x) emin + 1 := by
      have := le_max_left (Int.log 2 x) emin
      omega
    -- upper bound for the rounding of `x`
    have hxup : x ≤ (2 : ℚ) ^ (max (Int.log 2 x) emin + 1) :=
      le_trans (log2_lt x).le (zpow_le_zpow_right₀ (by norm_num) hEx)
    have hrx : round_even (x / fl_ulp p emin x) ≤ (2 : ℤ) ^ p := by
      have h1 : x / fl_ulp p emin x ≤ (((2 : ℤ) ^ p : ℤ) : ℚ) := by
        rw [div_le_iff₀ hux]
        unfold fl_ulp
        rw [ulp_mul_pow]
        exact hxup
      have := round_even_mono h1
      rwa [round_even_intCast] at this
    have hfx : fl_pos p emin x ≤ (2 : ℚ) ^ (max (Int.log 2 x) emin + 1) := by
      unfold fl_pos
      have h1 : ((round_even (x / fl_ulp p emin x) : ℤ) : ℚ) ≤ (((2 : ℤ) ^ p : ℤ) : ℚ) := by
        exact_mod_cast hrx
      calc ((round_even (x / fl_ulp p emin x) : ℤ) : ℚ) * fl_ulp p emin x
          ≤ (((2 : ℤ) ^ p : ℤ) : ℚ) * fl_ulp p emin x :=
            mul_le_mul_of_nonneg_right h1 hux.le
        _ = (2 : ℚ) ^ (max (Int.log 2 x) emin + 1) := by
            unfold fl_ulp
            rw [ulp_mul_pow]
    -- lower bound for the rounding of `y`
    have hylo : (2 : ℚ) ^ (max (Int.log 2 y) emin) ≤ y := by
      rw [hEy]
      exact log2_le hy0
    have hry : (2 : ℤ) ^ (p - 1) ≤ round_even (y / fl_ulp p emin y) := by
      have h1 : (((2 : ℤ) ^ (p - 1) : ℤ) : ℚ) ≤ y / fl_ulp p emin y := by
        rw [le_div_iff₀ huy]
        unfold fl_ulp
        rw [ulp_mul_pow_pred _ hp]
        exact hylo
      have := round_even_mono h1
      rwa [round_even_intCast] at this
    have hfy : (2 : ℚ) ^ (max (Int.log 2 y) emin) ≤ fl_pos p emin y := by
      unfold fl_pos
      have h1 : (((2 : ℤ) ^ (p - 1) : ℤ) : ℚ) ≤ ((round_even (y / fl_ulp p emin y) : ℤ) : ℚ) := by
        exact_mod_cast hry
      calc (2 : ℚ) ^ (max (Int.log 2 y) emin)
          = (((2 : ℤ) ^ (p - 1) : ℤ) : ℚ) * fl_ulp p emin y := by
            unfold fl_ulp
            rw [ulp_mul_pow_pred _ hp]
        _ ≤ ((round_even (y / fl_ulp p emin y) : ℤ) : ℚ) * fl_ulp p emin y :=
            mul_le_mul_of_nonneg_right h1 huy.le
    have hpow : (2 : ℚ) ^ (max (Int.log 2 x) emin + 1) ≤ (2 : ℚ) ^ (max (Int.log 2 y) emin) :=
      zpow_le_zpow_right₀ (by norm_num) (by omega)
    linarith

lemma fl_round_mono {p : ℕ} (hp : 1 ≤ p) (emin : ℤ) {x y : ℚ} (hxy : x ≤ y) :
    fl_round p emin x ≤ fl_round p emin y := by
  unfold fl_round
  by_cases hx : 0 ≤ x
  · rw [if_pos hx, if_pos (le_trans hx hxy)]
    exact fl_pos_mono hp emin hx hxy
  · rw [if_neg hx]
    have hx' : 0 ≤ -x := by linarith
    by_cases hy : 0 ≤ y
    · rw [if_pos hy]
      have h1 := fl_pos_nonneg p emin hx'
      have h2 := fl_pos_nonneg p emin hy
      linarith
    · rw [if_neg hy]
      have := fl_pos_mono hp emin (by linarith : 0 ≤ -y) (by linarith : -y ≤ -x)
      linarith

lemma fl_round_of_nonneg (p : ℕ) (emin : ℤ) {x : ℚ} (hx : 0 ≤ x) :
    fl_round p emin x = fl_pos p emin x := by
  unfold fl_round
  rw [if_pos hx]

lemma fl_round_zero (p : ℕ) (emin : ℤ) : fl_round p emin 0 = 0 := by
  rw [fl_round_of_nonneg p emin (le_refl 0), fl_pos_zero]

lemma fl_round_nonneg (p : ℕ) (emin : ℤ) {x : ℚ} (hx : 0 ≤ x) : 0 ≤ fl_round p emin x := by
  rw [fl_round_of_nonneg p emin hx]
  exact fl_pos_nonneg p emin hx

lemma fl_ulp_eq {p : ℕ} {emin : ℤ} {x : ℚ} {e : ℤ} (h1 : (2 : ℚ) ^ e ≤ x)
    (h2 : x < (2 : ℚ) ^ (e + 1)) (he : emin ≤ e) :
    fl_ulp p emin x = (2 : ℚ) ^ (e - ((p : ℤ) - 1)) := by
  unfold fl_ulp
  rw [log2_eq h1 h2, max_eq_left he]

/-- Evaluation of the rounding of a positive number `x` in the binade `[2^e, 2^(e+1))`:
the result is `n * u` as soon as `x / u` lies strictly within a half of `n`, where
`u = 2^(e - (p - 1))` is the spacing in that binade. -/
lemma fl_round_eval {p : ℕ} {emin : ℤ} {x : ℚ} (e n : ℤ) (u : ℚ)
    (hu : (2 : ℚ) ^ (e - ((p : ℤ) - 1)) = u) (h1 : (2 : ℚ) ^ e ≤ x)
    (h2 : x < (2 : ℚ) ^ (e + 1)) (he : emin ≤ e) (hlo : ((n : ℚ) - 1 / 2) * u < x)
    (hhi : x < ((n : ℚ) + 1 / 2) * u) : fl_round p emin x = (n : ℚ) * u := by
  have hx : 0 < x := lt_of_lt_of_le (zpow_pos (by norm_num) e) h1
  have hupos : 0 < u := by
    rw [← hu]
    exact zpow_pos (by norm_num) _
  rw [fl_round_of_nonneg p emin hx.le]
  unfold fl_pos
  rw [fl_ulp_eq h1 h2 he, hu]
  congr 1
  have : round_even (x / u) = n :=
    round_even_eq_of_lt (by rw [lt_div_iff₀ hupos]; exact hlo)
      (by rw [div_lt_iff₀ hupos]; exact hhi)
  exact_mod_cast this

/-- Evaluation at a halfway case: `x / u` is exactly `n + 1/2` and the even neighbour is
chosen. -/
lemma fl_round_eval_tie {p : ℕ} {emin : ℤ} {x : ℚ} (e n : ℤ) (u : ℚ)
    (hu : (2 : ℚ) ^ (e - ((p : ℤ) - 1)) = u) (h1 : (2 : ℚ) ^ e ≤ x)
    (h2 : x < (2 : ℚ) ^ (e + 1)) (he : emin ≤ e) (hx : x = ((n : ℚ) + 1 / 2) * u) :
    fl_round p emin x = ((if n % 2 = 0 then n else n + 1 : ℤ) : ℚ) * u := by
  have hx0 : 0 < x := lt_of_lt_of_le (zpow_pos (by norm_num) e) h1
  have hupos : 0 < u := by
    rw [← hu]
    exact zpow_pos (by norm_num) _
  rw [fl_round_of_nonneg p emin hx0.le]
  unfold fl_pos
  rw [fl_ulp_eq h1 h2 he, hu]
  congr 1
  have e1 : x / u = (n : ℚ) + 1 / 2 := by
    rw [div_eq_iff (ne_of_gt hupos)]
    exact hx
  rw [e1, round_even_half]

/-- A positive number in the binade `[2^e, 2^(e+1))` that is an integer multiple of the
spacing of that binade is not changed by rounding. -/
lemma fl_round_fix {p : ℕ} {emin : ℤ} {x : ℚ} (e n : ℤ) (h1 : (2 : ℚ) ^ e ≤ x)
    (h2 : x < (2 : ℚ) ^ (e + 1)) (he : emin ≤ e)
    (hx : x = (n : ℚ) * (2 : ℚ) ^ (e - ((p : ℤ) - 1))) : fl_round p emin x = x := by
  have hx0 : 0 < x := lt_of_lt_of_le (zpow_pos (by norm_num) e) h1
  rw [fl_round_of_nonneg p emin hx0.le]
  apply fl_pos_of_int (n := n)
  rw [fl_ulp_eq h1 h2 he]
  exact hx

lemma fl_pos_two_mul {p : ℕ} {emin : ℤ} {x : ℚ} (hx : 0 < x) (h : fl_pos p emin x = x) :
    fl_pos p emin (2 * x) = 2 * x := by
  have hn : x = ((round_even (x / fl_ulp p emin x) : ℤ) : ℚ) * fl_ulp p emin x := by
    unfold fl_pos at h
    exact h.symm
  have l1 : (2 : ℚ) ^ (Int.log 2 x + 1) ≤ 2 * x := by
    rw [zpow_add_one₀ (by norm_num)]
    linarith [log2_le hx]
  have l2 : 2 * x < (2 : ℚ) ^ (Int.log 2 x + 1 + 1) := by
    rw [zpow_add_one₀ (by norm_num)]
    linarith [log2_lt x]
  have hlog : Int.log 2 (2 * x) = Int.log 2 x + 1 := log2_eq l1 l2
  by_cases hle : emin ≤ Int.log 2 x
  · have hu : fl_ulp p emin (2 * x) = 2 * fl_ulp p emin x := by
      unfold fl_ulp
      rw [hlog, max_eq_left hle, max_eq_left (by omega : emin ≤ Int.log 2 x + 1),
        ← zpow_one_add₀ (by norm_num : (2 : ℚ) ≠ 0)]
      congr 1
      ring
    apply fl_pos_of_int (n := round_even (x / fl_ulp p emin x))
    rw [hu]
    linarith
  · have hu : fl_ulp p emin (2 * x) = fl_ulp p emin x := by
      unfold fl_ulp
      rw [hlog, max_eq_right (by omega : Int.log 2 x ≤ emin),
        max_eq_right (by omega : Int.log 2 x + 1 ≤ emin)]
    apply fl_pos_of_int (n := 2 * round_even (x / fl_ulp p emin x))
    rw [hu]
    push_cast
    linarith

/-- A number of lower precision and smaller exponent range is a number of the wider
format. -/
lemma fl_pos_widen {p q : ℕ} {emin fmin : ℤ} (hpq : p ≤ q) (hm : fmin ≤ emin) {x : ℚ}
    (h : fl_pos p emin x = x) : fl_pos q fmin x = x := by
  have hn : x = ((round_even (x / fl_ulp p emin x) : ℤ) : ℚ) * fl_ulp p emin x := by
    unfold fl_pos at h
    exact h.symm
  have hE : max (Int.log 2 x) fmin ≤ max (Int.log 2 x) emin := max_le_max (le_refl _) hm
  obtain ⟨d, hd⟩ : ∃ d : ℕ, (d : ℤ) =
      (max (Int.log 2 x) emin - ((p : ℤ) - 1)) - (max (Int.log 2 x) fmin - ((q : ℤ) - 1)) := by
    have hq : (p : ℤ) ≤ (q : ℤ) := by exact_mod_cast hpq
    exact ⟨_, Int.toNat_of_nonneg (by omega)⟩
  have hu : fl_ulp p emin x = (((2 : ℤ) ^ d : ℤ) : ℚ) * fl_ulp q fmin x := by
    unfold fl_ulp
    push_cast
    rw [← zpow_natCast, ← zpow_add₀ (by norm_num : (2 : ℚ) ≠ 0), hd]
    congr 1
    ring
  apply fl_pos_of_int (n := round_even (x / fl_ulp p emin x) * (2 : ℤ) ^ d)
  generalize round_even (x / fl_ulp p emin x) = r at hn
  rw [hu] at hn
  push_cast
  push_cast at hn
  linarith

/-! ## Rounding to binary32 and binary64 -/

lemma f32_mono {x y : ℚ} (h : x ≤ y) : f32 x ≤ f32 y :=
  fl_round_mono (by norm_num) (-126) h

lemma f64_mono {x y : ℚ} (h : x ≤ y) : f64 x ≤ f64 y :=
  fl_round_mono (by norm_num) (-1022) h

lemma f32_zero : f32 0 = 0 :=
  fl_round_zero 24 (-126)

lemma f64_zero : f64 0 = 0 :=
  fl_round_zero 53 (-1022)

lemma f32_nonneg {x : ℚ} (hx : 0 ≤ x) : 0 ≤ f32 x :=
  fl_round_nonneg 24 (-126) hx

lemma f64_nonneg {x : ℚ} (hx : 0 ≤ x) : 0 ≤ f64 x :=
  fl_round_nonneg 53 (-1022) hx

/-- Evaluation of `f32` at a positive number of the binade `[2^e, 2^(e+1))`, whose
spacing is `u = 2^(e - 23)`. -/
lemma f32_eval {x : ℚ} (e n : ℤ) (u : ℚ) (hu : (2 : ℚ) ^ (e - 23) = u)
    (h1 : (2 : ℚ) ^ e ≤ x) (h2 : x < (2 : ℚ) ^ (e + 1)) (he : -126 ≤ e)
    (hlo : ((n : ℚ) - 1 / 2) * u < x) (hhi : x < ((n : ℚ) + 1 / 2) * u) :
    f32 x = (n : ℚ) * u :=
  fl_round_eval e n u (by rw [← hu]; norm_num) h1 h2 he hlo hhi

/-- Evaluation of `f64` at a positive number of the binade `[2^e, 2^(e+1))`, whose
spacing is `u = 2^(e - 52)`. -/
lemma f64_eval {x : ℚ} (e n : ℤ) (u : ℚ) (hu : (2 : ℚ) ^ (e - 52) = u)
    (h1 : (2 : ℚ) ^ e ≤ x) (h2 : x < (2 : ℚ) ^ (e + 1)) (he : -1022 ≤ e)
    (hlo : ((n : ℚ) - 1 / 2) * u < x) (hhi : x < ((n : ℚ) + 1 / 2) * u) :
    f64 x = (n : ℚ) * u :=
  fl_round_eval e n u (by rw [← hu]; norm_num) h1 h2 he hlo hhi

/-- Evaluation of `f32` at a halfway case. -/
lemma f32_eval_tie {x : ℚ} (e n : ℤ) (u : ℚ) (hu : (2 : ℚ) ^ (e - 23) = u)
    (h1 : (2 : ℚ) ^ e ≤ x) (h2 : x < (2 : ℚ) ^ (e + 1)) (he : -126 ≤ e)
    (hx : x = ((n : ℚ) + 1 / 2) * u) :
    f32 x = ((if n % 2 = 0 then n else n + 1 : ℤ) : ℚ) * u :=
  fl_round_eval_tie e n u (by rw [← hu]; norm_num) h1 h2 he hx

/-- A positive multiple `n * 2^(e - 23)` lying in the binade `[2^e, 2^(e+1))` is a
binary32 number. -/
lemma f32_fix {x : ℚ} (e n : ℤ) (h1 : (2 : ℚ) ^ e ≤ x) (h2 : x < (2 : ℚ) ^ (e + 1))
    (he : -126 ≤ e) (hx : x = (n : ℚ) * (2 : ℚ) ^ (e - 23)) : f32 x = x :=
  fl_round_fix e n h1 h2 he (by rw [hx]; norm_num)

/-- A positive multiple `n * 2^(e - 52)` lying in the binade `[2^e, 2^(e+1))` is a
binary64 number. -/
lemma f64_fix {x : ℚ} (e n : ℤ) (h1 : (2 : ℚ) ^ e ≤ x) (h2 : x < (2 : ℚ) ^ (e + 1))
    (he : -1022 ≤ e) (hx : x = (n : ℚ) * (2 : ℚ) ^ (e - 52)) : f64 x = x :=
  fl_round_fix e n h1 h2 he (by rw [hx]; norm_num)

lemma f32_one : f32 1 = 1 :=
  f32_fix 0 8388608 (by norm_num) (by norm_num) (by norm_num) (by norm_num)

lemma f32_two : f32 2 = 2 :=
  f32_fix 1 8388608 (by norm_num) (by norm_num) (by norm_num) (by norm_num)

lemma f64_one : f64 1 = 1 :=
  f64_fix 0 4503599627370496 (by norm_num) (by norm_num) (by norm_num) (by norm_num)

lemma f64_two : f64 2 = 2 :=
  f64_fix 1 4503599627370496 (by norm_num) (by norm_num) (by norm_num) (by norm_num)

lemma f32_neg_one : f32 (-1) = -1 := by
  have h : f32 1 = 1 := f32_one
  unfold f32 fl_round at h ⊢
  rw [if_pos (by norm_num)] at h
  rw [if_neg (by norm_num), neg_neg, h]

lemma f64_neg_one : f64 (-1) = -1 := by
  have h : f64 1 = 1 := f64_one
  unfold f64 fl_round at h ⊢
  rw [if_pos (by norm_num)] at h
  rw [if_neg (by norm_num), neg_neg, h]

/-- The double of a binary32 number is a binary32 number. -/
lemma f32_two_mul {x : ℚ} (hx : 0 ≤ x) (h : f32 x = x) : f32 (2 * x) = 2 * x := by
  rcases hx.eq_or_lt with h0 | hx0
  · rw [← h0, mul_zero, f32_zero]
  · unfold f32 at h ⊢
    rw [fl_round_of_nonneg _ _ hx] at h
    rw [fl_round_of_nonneg _ _ (by linarith : (0 : ℚ) ≤ 2 * x)]
    exact fl_pos_two_mul hx0 h

/-- A nonnegative binary32 number is a binary64 number. -/
lemma f64_of_f32 {x : ℚ} (hx : 0 ≤ x) (h : f32 x = x) : f64 x = x := by
  unfold f32 at h
  unfold f64
  rw [fl_round_of_nonneg _ _ hx] at h
  rw [fl_round_of_nonneg _ _ hx]
  exact fl_pos_widen (by norm_num) (by norm_num) h

/-! ## Saturation of `rgb_to_hsl` in binary32 -/

/-- C5, failing input: in binary32 `rgb_to_hsl` applied to `(255, 255, 254)` writes the
saturation `65537/65536`, which is greater than `1`, although `r`, `g`, `b` lie in
`[0,255]`.  The sum `fmax + fmin` is rounded up, so `2 - 2*l` comes out smaller than
`fmax - fmin`. -/
theorem rgb_to_hsl_f32_saturation_above_one :
    ((0 : ℤ) ≤ 255 ∧ (255 : ℤ) ≤ 255) ∧ ((0 : ℤ) ≤ 254 ∧ (254 : ℤ) ≤ 255) ∧
      (rgb_to_hsl_f32 255 255 254).s = 65537 / 65536 ∧
      ¬ ((rgb_to_hsl_f32 255 255 254).s ≤ 1) := by
  have f64_254_255 : f64 ((254 : ℚ) / 255) = 280371153272575 / 281474976710656 := by
    rw [f64_eval (-1) 8971876904722400 (1 / 9007199254740992) (by norm_num) (by norm_num)
      (by norm_num) (by norm_num) (by norm_num) (by norm_num)]
    norm_num
  have f32_f64_254_255 :
      f32 ((280371153272575 : ℚ) / 281474976710656) = 16711423 / 16777216 := by
    rw [f32_eval (-1) 16711423 (1 / 16777216) (by norm_num) (by norm_num) (by norm_num)
      (by norm_num) (by norm_num) (by norm_num)]
    norm_num
  -- The sum `fmax + fmin` for `(255, 255, 254)` is a halfway case: it is rounded up to
  -- the even neighbour.
  have f32_sum_255_254 : f32 ((1 : ℚ) + 16711423 / 16777216) = 130815 / 65536 := by
    rw [f32_eval_tie 0 16744319 (1 / 8388608) (by norm_num) (by norm_num) (by norm_num)
      (by norm_num) (by norm_num)]
    norm_num
  have f64_half_sum_255_254 : f64 ((1 : ℚ) / 2 * (130815 / 65536)) = 130815 / 131072 := by
    rw [f64_fix (-1) 8989538349219840 (by norm_num) (by norm_num) (by norm_num) (by norm_num)]
    norm_num
  have f32_l_255_254 : f32 ((130815 : ℚ) / 131072) = 130815 / 131072 :=
    f32_fix (-1) 16744320 (by norm_num) (by norm_num) (by norm_num) (by norm_num)
  have f32_diff_255_254 : f32 ((1 : ℚ) - 16711423 / 16777216) = 65793 / 16777216 := by
    rw [f32_fix (-8) 8421504 (by norm_num) (by norm_num) (by norm_num) (by norm_num)]
    norm_num
  have f32_two_l_255_254 : f32 ((2 : ℚ) * (130815 / 131072)) = 130815 / 65536 := by
    rw [f32_fix 0 16744320 (by norm_num) (by norm_num) (by norm_num) (by norm_num)]
    norm_num
  have f32_two_sub_255_254 : f32 ((2 : ℚ) - 130815 / 65536) = 257 / 65536 := by
    rw [f32_fix (-8) 8421376 (by norm_num) (by norm_num) (by norm_num) (by norm_num)]
    norm_num
  have f32_quot_255_254 :
      f32 ((65793 : ℚ) / 16777216 / (257 / 65536)) = 65537 / 65536 := by
    rw [f32_eval 0 8388736 (1 / 8388608) (by norm_num) (by norm_num) (by norm_num)
      (by norm_num) (by norm_num) (by norm_num)]
    norm_num
  have m : max (max (255 : ℤ) 255) 254 = 255 := by decide
  have n : min (min (255 : ℤ) 255) 254 = 254 := by decide
  have hne : ¬ ((255 : ℤ) = 254) := by decide
  have c1 : ((255 : ℤ) : ℚ) / 255 = 1 := by norm_num
  have c2 : ((254 : ℤ) : ℚ) / 255 = 254 / 255 := by norm_num
  have hl : ¬ ((130815 : ℚ) / 131072 ≤ 1 / 2) := by norm_num
  have e : (rgb_to_hsl_f32 255 255 254).s = 65537 / 65536 := by
    simp only [rgb_to_hsl_f32, m, n, hne, if_false, c1, c2, f64_one, f32_one, f64_254_255,
      f32_f64_254_255, f32_sum_255_254, f64_half_sum_255_254, f32_l_255_254, hl,
      f32_diff_255_254, f32_two_l_255_254, f32_two_sub_255_254, f32_quot_255_254]
  refine ⟨by decide, by decide, e, ?_⟩
  rw [e]
  norm_num

/-! ## The arm of the dominant-channel chain -/

/-- The traced function writes what `rgb_to_hsl` writes, and the arm it records is
the first of red, green, blue whose test succeeds. -/
lemma rgb_to_hsl_traced_eq (r g b : ℤ) :
    rgb_to_hsl_traced r g b =
      (rgb_to_hsl r g b,
        if r = max (max r g) b then HueBranch.red
        else if g = max (max r g) b then HueBranch.green else HueBranch.blue) := by
  simp only [rgb_to_hsl_traced, rgb_to_hsl]
  split_ifs <;> rfl

/-- The traced function writes what `rgb_to_hsv` writes, and the arm it records is
the first of red, green, blue whose test succeeds. -/
lemma rgb_to_hsv_traced_eq (r g b : ℤ) :
    rgb_to_hsv_traced r g b =
      (rgb_to_hsv r g b,
        if r = max (max r g) b then HueBranch.red
        else if g = max (max r g) b then HueBranch.green else HueBranch.blue) := by
  simp only [rgb_to_hsv_traced, rgb_to_hsv]
  split_ifs <;> rfl

/-! ## The tie of red and green in binary32 -/

/-- Relative error of rounding in the normal range: at most `2^(-p)`. -/
lemma fl_round_err {p : ℕ} {emin : ℤ} {x : ℚ} (hx : (2 : ℚ) ^ emin ≤ x) :
    x * (1 - (2 : ℚ) ^ (-(p : ℤ))) ≤ fl_round p emin x ∧
      fl_round p emin x ≤ x * (1 + (2 : ℚ) ^ (-(p : ℤ))) := by
  have hx0 : 0 < x := lt_of_lt_of_le (zpow_pos (by norm_num) emin) hx
  have hlog : emin ≤ Int.log 2 x :=
    (Int.zpow_le_iff_le_log (by norm_num) hx0).mp (by exact_mod_cast hx)
  have hu : fl_ulp p emin x = (2 : ℚ) ^ Int.log 2 x * (2 * (2 : ℚ) ^ (-(p : ℤ))) := by
    unfold fl_ulp
    rw [max_eq_left hlog, ← zpow_one_add₀ (by norm_num : (2 : ℚ) ≠ 0),
      ← zpow_add₀ (by norm_num : (2 : ℚ) ≠ 0)]
    congr 1
    ring
  have hup := fl_ulp_pos p emin x
  have hpp : (0 : ℚ) < (2 : ℚ) ^ (-(p : ℤ)) := zpow_pos (by norm_num) _
  have hule : fl_ulp p emin x ≤ x * (2 * (2 : ℚ) ^ (-(p : ℤ))) := by
    rw [hu]
    exact mul_le_mul_of_nonneg_right (log2_le hx0) (by linarith)
  obtain ⟨b1, b2⟩ := round_even_bounds (x / fl_ulp p emin x)
  have e : x / fl_ulp p emin x * fl_ulp p emin x = x := div_mul_cancel₀ x (ne_of_gt hup)
  have c1 := mul_le_mul_of_nonneg_right b1 hup.le
  have c2 := mul_le_mul_of_nonneg_right b2 hup.le
  rw [e] at c1 c2
  rw [fl_round_of_nonneg p emin hx0.le]
  unfold fl_pos
  constructor <;> nlinarith

/-- The binary32 value of a normalised channel `k/255.0` is within a relative `2^(-23)`
of `k/255`. -/
lemma chan_f32_bounds {k : ℤ} (h1 : 1 ≤ k) (_h2 : k ≤ 255) :
    (k : ℚ) / 255 * (1 - 1 / 8388608) ≤ f32 (f64 ((k : ℚ) / 255)) ∧
      f32 (f64 ((k : ℚ) / 255)) ≤ (k : ℚ) / 255 * (1 + 1 / 8388608) := by
  have hk : (1 : ℚ) ≤ (k : ℚ) := by exact_mod_cast h1
  have hx : (1 : ℚ) / 255 ≤ (k : ℚ) / 255 := div_le_div_of_nonneg_right hk (by norm_num)
  have p8 : (2 : ℚ) ^ (-8 : ℤ) = 1 / 256 := by norm_num
  have e64 : (2 : ℚ) ^ (-1022 : ℤ) ≤ (k : ℚ) / 255 := by
    have : (2 : ℚ) ^ (-1022 : ℤ) ≤ (2 : ℚ) ^ (-8 : ℤ) :=
      zpow_le_zpow_right₀ (by norm_num) (by norm_num)
    rw [p8] at this
    linarith
  obtain ⟨a1, a2⟩ := fl_round_err (p := 53) e64
  have c53 : (2 : ℚ) ^ (-((53 : ℕ) : ℤ)) = 1 / 9007199254740992 := by norm_num
  rw [c53] at a1 a2
  have hy : (1 : ℚ) / 256 ≤ f64 ((k : ℚ) / 255) := by
    unfold f64
    nlinarith
  have e32 : (2 : ℚ) ^ (-126 : ℤ) ≤ f64 ((k : ℚ) / 255) := by
    have : (2 : ℚ) ^ (-126 : ℤ) ≤ (2 : ℚ) ^ (-8 : ℤ) :=
      zpow_le_zpow_right₀ (by norm_num) (by norm_num)
    rw [p8] at this
    linarith
  obtain ⟨b1, b2⟩ := fl_round_err (p := 24) e32
  have c24 : (2 : ℚ) ^ (-((24 : ℕ) : ℤ)) = 1 / 16777216 := by norm_num
  rw [c24] at b1 b2
  have hy0 : 0 ≤ f64 ((k : ℚ) / 255) := by linarith
  have a1' : (k : ℚ) / 255 * (1 - 1 / 9007199254740992) ≤ f64 ((k : ℚ) / 255) := a1
  have a2' : f64 ((k : ℚ) / 255) ≤ (k : ℚ) / 255 * (1 + 1 / 9007199254740992) := a2
  have b1' : f64 ((k : ℚ) / 255) * (1 - 1 / 16777216) ≤ f32 (f64 ((k : ℚ) / 255)) := b1
  have b2' : f32 (f64 ((k : ℚ) / 255)) ≤ f64 ((k : ℚ) / 255) * (1 + 1 / 16777216) := b2
  constructor <;> nlinarith

lemma chan_f32_zero : f32 (f64 (((0 : ℤ) : ℚ) / 255)) = 0 := by
  rw [Int.cast_zero, zero_div, f64_zero, f32_zero]

/-- In binary32 the red arm writes exactly `60` when red and green tie for the
maximum: the rounding error of `multiplier * (fg - fb)` is absorbed by the sum with
`360`. -/
lemma hue_tie_f32 {r b : ℤ} (hb : 0 ≤ b) (hbr : b < r) (hr : r ≤ 255) :
    (rgb_to_hsl_f32 r r b).h = 60 := by
  have hmax : max (max r r) b = r := by omega
  have hmin : min (min r r) b = b := by omega
  have hne : ¬ b = r := by omega
  obtain ⟨r1, r2⟩ := chan_f32_bounds (by omega : 1 ≤ r) hr
  have hrq : (r : ℚ) ≤ 255 := by exact_mod_cast hr
  have hbq : (b : ℚ) + 1 ≤ (r : ℚ) := by exact_mod_cast hbr
  have hb0 : (0 : ℚ) ≤ (b : ℚ) := by exact_mod_cast hb
  -- the two normalised channels differ by at least `1/256`
  have hb2 : 0 ≤ f32 (f64 ((b : ℚ) / 255)) ∧
      f32 (f64 ((b : ℚ) / 255)) ≤ (b : ℚ) / 255 * (1 + 1 / 8388608) := by
    rcases hb.eq_or_lt with h0 | h0
    · rw [← h0, chan_f32_zero]
      norm_num
    · obtain ⟨_, q2⟩ := chan_f32_bounds (by omega : 1 ≤ b) (by omega : b ≤ 255)
      exact ⟨f32_nonneg (f64_nonneg (div_nonneg hb0 (by norm_num))), q2⟩
  have hd1 : (1 : ℚ) / 256 ≤ f32 (f64 ((r : ℚ) / 255)) - f32 (f64 ((b : ℚ) / 255)) := by
    linarith [hb2.2]
  have hr1 : f32 (f64 ((r : ℚ) / 255)) ≤ 1 := by
    have h1 : (r : ℚ) / 255 ≤ 1 := by
      rw [div_le_one (by norm_num)]
      exact hrq
    have := f32_mono (f64_mono h1)
    rwa [f64_one, f32_one] at this
  have hD0 : (1 : ℚ) / 256 ≤ f32 (f32 (f64 ((r : ℚ) / 255)) - f32 (f64 ((b : ℚ) / 255))) := by
    have := f32_mono hd1
    rwa [f32_fix (-8) 8388608 (by norm_num) (by norm_num) (by norm_num) (by norm_num)] at this
  have hD1 : f32 (f32 (f64 ((r : ℚ) / 255)) - f32 (f64 ((b : ℚ) / 255))) ≤ 1 := by
    have := f32_mono (by linarith [hb2.1] :
      f32 (f64 ((r : ℚ) / 255)) - f32 (f64 ((b : ℚ) / 255)) ≤ 1)
    rwa [f32_one] at this
  simp only [rgb_to_hsl_f32, hmax, hmin, hne, if_false, if_true]
  generalize f32 (f32 (f64 ((r : ℚ) / 255)) - f32 (f64 ((b : ℚ) / 255))) = D at hD0 hD1 ⊢
  have hDpos : 0 < D := by linarith
  have e60 : 60 / D * D = 60 := div_mul_cancel₀ 60 (ne_of_gt hDpos)
  -- the multiplier `60 / D`, rounded
  have hq : (2 : ℚ) ^ (-126 : ℤ) ≤ 60 / D := by
    have h1 : (2 : ℚ) ^ (-126 : ℤ) ≤ (2 : ℚ) ^ (0 : ℤ) :=
      zpow_le_zpow_right₀ (by norm_num) (by norm_num)
    have h2 : (60 : ℚ) ≤ 60 / D := by
      rw [le_div_iff₀ hDpos]
      linarith
    rw [zpow_zero] at h1
    linarith
  obtain ⟨m1, m2⟩ := fl_round_err (p := 24) hq
  have c24 : (2 : ℚ) ^ (-((24 : ℕ) : ℤ)) = 1 / 16777216 := by norm_num
  rw [c24] at m1 m2
  have m1' : 60 / D * (1 - 1 / 16777216) ≤ f32 (60 / D) := m1
  have m2' : f32 (60 / D) ≤ 60 / D * (1 + 1 / 16777216) := m2
  -- the product `multiplier * (fg - fb)` before and after rounding
  have p1 : 60 * (1 - 1 / 16777216) ≤ f32 (60 / D) * D := by
    have := mul_le_mul_of_nonneg_right m1' hDpos.le
    have e : 60 / D * (1 - 1 / 16777216) * D = 60 / D * D * (1 - 1 / 16777216) := by ring
    rw [e, e60] at this
    exact this
  have p2 : f32 (60 / D) * D ≤ 60 * (1 + 1 / 16777216) := by
    have := mul_le_mul_of_nonneg_right m2' hDpos.le
    have e : 60 / D * (1 + 1 / 16777216) * D = 60 / D * D * (1 + 1 / 16777216) := by ring
    rw [e, e60] at this
    exact this
  have v1 : f32 ((60 : ℚ) * (1 - 1 / 16777216)) = 15728639 / 262144 := by
    rw [f32_eval 5 15728639 (1 / 262144) (by norm_num) (by norm_num) (by norm_num)
      (by norm_num) (by norm_num) (by norm_num)]
    norm_num
  have v2 : f32 ((60 : ℚ) * (1 + 1 / 16777216)) = 15728641 / 262144 := by
    rw [f32_eval 5 15728641 (1 / 262144) (by norm_num) (by norm_num) (by norm_num)
      (by norm_num) (by norm_num) (by norm_num)]
    norm_num
  have q1 : (15728639 : ℚ) / 262144 ≤ f32 (f32 (60 / D) * D) := by
    have := f32_mono p1
    rwa [v1] at this
  have q2 : f32 (f32 (60 / D) * D) ≤ (15728641 : ℚ) / 262144 := by
    have := f32_mono p2
    rwa [v2] at this
  -- the sum with `360` rounds to `420`
  have v3 : f32 ((15728639 : ℚ) / 262144 + 360) = 420 := by
    rw [f32_eval 8 13762560 (1 / 32768) (by norm_num) (by norm_num) (by norm_num)
      (by norm_num) (by norm_num) (by norm_num)]
    norm_num
  have v4 : f32 ((15728641 : ℚ) / 262144 + 360) = 420 := by
    rw [f32_eval 8 13762560 (1 / 32768) (by norm_num) (by norm_num) (by norm_num)
      (by norm_num) (by norm_num) (by norm_num)]
    norm_num
  have s1 : (420 : ℚ) ≤ f32 (f32 (f32 (60 / D) * D) + 360) := by
    have := f32_mono (by linarith : (15728639 : ℚ) / 262144 + 360 ≤ f32 (f32 (60 / D) * D) + 360)
    rwa [v3] at this
  have s2 : f32 (f32 (f32 (60 / D) * D) + 360) ≤ 420 := by
    have := f32_mono (by linarith : f32 (f32 (60 / D) * D) + 360 ≤ (15728641 : ℚ) / 262144 + 360)
    rwa [v4] at this
  have h420 : f32 (f32 (f32 (60 / D) * D) + 360) = 420 := le_antisymm s2 s1
  rw [h420, if_pos (by norm_num)]
  have e : (420 : ℚ) - 360 = 60 := by norm_num
  rw [e]
  exact f32_fix 5 15728640 (by norm_num) (by norm_num) (by norm_num) (by norm_num)

lemma hsv_f32_hue_eq (r g b : ℤ) : (rgb_to_hsv_f32 r g b).h = (rgb_to_hsl_f32 r g b).h := by
  simp only [rgb_to_hsv_f32, rgb_to_hsl_f32]

/-- C12 (tie-break on the maximum): for all integers `r`, `g`, `b` in `[0,255]` with
`r = g > b`, `rgb_to_hsl` and `rgb_to_hsv` execute the red-dominant arm of the
dominant-channel chain, not the green one, and write `h = 60`, in exact arithmetic and
in binary32 alike. -/
theorem tie_break_red (r g b : ℤ) (hr : 0 ≤ r ∧ r ≤ 255) (_hg : 0 ≤ g ∧ g ≤ 255)
    (hb : 0 ≤ b ∧ b ≤ 255) (hrg : r = g) (hgb : b < g) :
    (rgb_to_hsl_traced r g b = (rgb_to_hsl r g b, HueBranch.red) ∧
        (rgb_to_hsl r g b).h = 60 ∧ (rgb_to_hsl_f32 r g b).h = 60) ∧
      (rgb_to_hsv_traced r g b = (rgb_to_hsv r g b, HueBranch.red) ∧
        (rgb_to_hsv r g b).h = 60 ∧ (rgb_to_hsv_f32 r g b).h = 60) := by
  subst hrg
  have hq : (b : ℚ) < r := by exact_mod_cast hgb
  have c1 : ((r : ℚ) - b) / ((r : ℚ) - b) = 1 := div_self (by linarith)
  have e : (rgb_to_hsl r r b).h = 60 := by
    rw [hue_red_up hgb.le (le_refl r) hgb, c1]
    norm_num
  have e32 : (rgb_to_hsl_f32 r r b).h = 60 := hue_tie_f32 hb.1 hgb hr.2
  have hmax : r = max (max r r) b := by omega
  refine ⟨⟨?_, e, e32⟩, ?_, ?_, ?_⟩
  · rw [rgb_to_hsl_traced_eq, if_pos hmax]
  · rw [rgb_to_hsv_traced_eq, if_pos hmax]
  · rw [hsv_hue_eq]
    exact e
  · rw [hsv_f32_hue_eq]
    exact e32

theorem tie_break_red_witness :
    ((0 : ℤ) ≤ 255 ∧ (255 : ℤ) ≤ 255) ∧ ((0 : ℤ) ≤ 255 ∧ (255 : ℤ) ≤ 255) ∧
      ((0 : ℤ) ≤ 0 ∧ (0 : ℤ) ≤ 255) ∧ (255 : ℤ) = 255 ∧ (0 : ℤ) < 255 ∧
      (rgb_to_hsl_traced 255 255 0 = (rgb_to_hsl 255 255 0, HueBranch.red) ∧
        (rgb_to_hsl 255 255 0).h = 60 ∧ (rgb_to_hsl_f32 255 255 0).h = 60) ∧
      (rgb_to_hsv_traced 255 255 0 = (rgb_to_hsv 255 255 0, HueBranch.red) ∧
        (rgb_to_hsv 255 255 0).h = 60 ∧ (rgb_to_hsv_f32 255 255 0).h = 60) :=
  ⟨by decide, by decide, by decide, rfl, by decide,
    tie_break_red 255 255 0 (by decide) (by decide) (by decide) rfl (by decide)⟩

/-! ## The hue offsets of `hsl_to_rgb` in binary32 -/

lemma f64_third_range : 0 ≤ f64 (1 / 3) ∧ f64 (1 / 3) ≤ 1 := by
  constructor
  · exact f64_nonneg (by norm_num)
  · have := f64_mono (by norm_num : (1 / 3 : ℚ) ≤ 1)
    rwa [f64_one] at this

lemma f32_unit_range {x : ℚ} (h0 : 0 ≤ x) (h1 : x ≤ 1) : 0 ≤ f32 x ∧ f32 x ≤ 1 := by
  constructor
  · exact f32_nonneg h0
  · have := f32_mono h1
    rwa [f32_one] at this

lemma hsl_wrap_f32_range {t : ℚ} (h0 : -1 ≤ t) (h1 : t ≤ 2) :
    0 ≤ hsl_wrap_f32 t ∧ hsl_wrap_f32 t ≤ 1 := by
  unfold hsl_wrap_f32
  split_ifs with a b
  · exact f32_unit_range (by linarith) (by linarith)
  · exact f32_unit_range (by linarith) (by linarith)
  · constructor <;> linarith

lemma hsl_t0_f32_range {h : ℚ} (h0 : 0 ≤ h) (h1 : h ≤ 1) :
    -1 ≤ hsl_t0_f32 h ∧ hsl_t0_f32 h ≤ 2 := by
  obtain ⟨a0, a1⟩ := f64_third_range
  unfold hsl_t0_f32
  have b0 : 0 ≤ f64 (h + f64 (1 / 3)) := f64_nonneg (by linarith)
  have b1 : f64 (h + f64 (1 / 3)) ≤ 2 := by
    have := f64_mono (by linarith : h + f64 (1 / 3) ≤ 2)
    rwa [f64_two] at this
  have c0 := f32_nonneg b0
  have c1 := f32_mono b1
  rw [f32_two] at c1
  constructor <;> linarith

lemma hsl_t2_f32_range {h : ℚ} (h0 : 0 ≤ h) (h1 : h ≤ 1) :
    -1 ≤ hsl_t2_f32 h ∧ hsl_t2_f32 h ≤ 2 := by
  obtain ⟨a0, a1⟩ := f64_third_range
  unfold hsl_t2_f32
  have b0 : -1 ≤ f64 (h - f64 (1 / 3)) := by
    have := f64_mono (by linarith : (-1 : ℚ) ≤ h - f64 (1 / 3))
    rwa [f64_neg_one] at this
  have b1 : f64 (h - f64 (1 / 3)) ≤ 1 := by
    have := f64_mono (by linarith : h - f64 (1 / 3) ≤ 1)
    rwa [f64_one] at this
  have c0 := f32_mono b0
  rw [f32_neg_one] at c0
  have c1 := f32_mono b1
  rw [f32_one] at c1
  constructor <;> linarith

/-- C15, as amended (`hsl_to_rgb` hue-offset wrap): for every `h` with `0 ≤ h < 360`,
after the add/subtract-1 wrap step each of the three channel offsets derived from
`h/360 + 1/3`, `h/360` and `h/360 - 1/3` lies in the closed interval `[0,1]`, in exact
arithmetic and in binary32 alike. -/
theorem hsl_wrap_offsets (h : ℚ) (hh : 0 ≤ h ∧ h < 360) :
    ((0 ≤ hsl_wrap (h / 360 + 1 / 3) ∧ hsl_wrap (h / 360 + 1 / 3) ≤ 1) ∧
        (0 ≤ hsl_wrap (h / 360) ∧ hsl_wrap (h / 360) ≤ 1) ∧
        (0 ≤ hsl_wrap (h / 360 - 1 / 3) ∧ hsl_wrap (h / 360 - 1 / 3) ≤ 1)) ∧
      ((0 ≤ hsl_wrap_f32 (hsl_t0_f32 (f32 (h / 360))) ∧
          hsl_wrap_f32 (hsl_t0_f32 (f32 (h / 360))) ≤ 1) ∧
        (0 ≤ hsl_wrap_f32 (f32 (h / 360)) ∧ hsl_wrap_f32 (f32 (h / 360)) ≤ 1) ∧
        (0 ≤ hsl_wrap_f32 (hsl_t2_f32 (f32 (h / 360))) ∧
          hsl_wrap_f32 (hsl_t2_f32 (f32 (h / 360))) ≤ 1)) := by
  have u0 : 0 ≤ h / 360 := div_nonneg hh.1 (by norm_num)
  have u1 : h / 360 ≤ 1 := by
    rw [div_le_one (by norm_num)]
    exact hh.2.le
  obtain ⟨v0, v1⟩ := f32_unit_range u0 u1
  obtain ⟨a0, a1⟩ := hsl_t0_f32_range v0 v1
  obtain ⟨b0, b1⟩ := hsl_t2_f32_range v0 v1
  exact ⟨⟨hsl_wrap_range (by linarith) (by linarith), hsl_wrap_range (by linarith) (by linarith),
      hsl_wrap_range (by linarith) (by linarith)⟩,
    hsl_wrap_f32_range a0 a1, hsl_wrap_f32_range (by linarith) (by linarith),
    hsl_wrap_f32_range b0 b1⟩

theorem hsl_wrap_offsets_witness :
    ((0 : ℚ) ≤ 240 ∧ (240 : ℚ) < 360) ∧
      ((0 ≤ hsl_wrap ((240 : ℚ) / 360 + 1 / 3) ∧ hsl_wrap ((240 : ℚ) / 360 + 1 / 3) ≤ 1) ∧
        (0 ≤ hsl_wrap ((240 : ℚ) / 360) ∧ hsl_wrap ((240 : ℚ) / 360) ≤ 1) ∧
        (0 ≤ hsl_wrap ((240 : ℚ) / 360 - 1 / 3) ∧ hsl_wrap ((240 : ℚ) / 360 - 1 / 3) ≤ 1)) ∧
      ((0 ≤ hsl_wrap_f32 (hsl_t0_f32 (f32 ((240 : ℚ) / 360))) ∧
          hsl_wrap_f32 (hsl_t0_f32 (f32 ((240 : ℚ) / 360))) ≤ 1) ∧
        (0 ≤ hsl_wrap_f32 (f32 ((240 : ℚ) / 360)) ∧ hsl_wrap_f32 (f32 ((240 : ℚ) / 360)) ≤ 1) ∧
        (0 ≤ hsl_wrap_f32 (hsl_t2_f32 (f32 ((240 : ℚ) / 360))) ∧
          hsl_wrap_f32 (hsl_t2_f32 (f32 ((240 : ℚ) / 360))) ≤ 1)) :=
  ⟨by norm_num, hsl_wrap_offsets 240 (by norm_num)⟩


/-! ## `hsv_to_rgb` in binary32 -/

/-- The largest binary32 number below `360` is `360 - 2^(-15)`. -/
lemma f32_lt_360 {h : ℚ} (rh : f32 h = h) (h0 : 0 ≤ h) (h1 : h < 360) :
    h ≤ 360 - 1 / 32768 := by
  by_cases hs : h < 256
  · linarith
  · have b1 : (2 : ℚ) ^ (8 : ℤ) ≤ h := by
      norm_num
      linarith
    have b2 : h < (2 : ℚ) ^ ((8 : ℤ) + 1) := by
      norm_num
      linarith
    unfold f32 at rh
    rw [fl_round_of_nonneg _ _ h0] at rh
    unfold fl_pos at rh
    rw [fl_ulp_eq b1 b2 (by norm_num)] at rh
    have hu : (2 : ℚ) ^ ((8 : ℤ) - (((24 : ℕ) : ℤ) - 1)) = 1 / 32768 := by norm_num
    rw [hu] at rh
    generalize round_even (h / (1 / 32768)) = n at rh
    have hn : (n : ℚ) < ((11796480 : ℤ) : ℚ) := by
      push_cast
      linarith
    have hn2 : n < 11796480 := by exact_mod_cast hn
    have hn3 : (n : ℚ) ≤ ((11796479 : ℤ) : ℚ) := by exact_mod_cast (by omega : n ≤ 11796479)
    push_cast at hn3
    linarith

/-- For a binary32 hue in `[0, 360)` the binary32 quotient `h / 60` stays below `6`:
the sector index is one of `0, ..., 5` and the remainder lies in `[0, 1]`. -/
lemma hsv_sector_valid_f32 {h : ℚ} (rh : f32 h = h) (h0 : 0 ≤ h) (h1 : h < 360) :
    (0 ≤ hsv_hi_f32 h ∧ hsv_hi_f32 h ≤ 5) ∧ (0 ≤ hsv_f_f32 h ∧ hsv_f_f32 h ≤ 1) := by
  have f32_hmax_div_60 : f32 (((360 : ℚ) - 1 / 32768) / 60) = 12582911 / 2097152 := by
    rw [f32_eval 2 12582911 (1 / 2097152) (by norm_num) (by norm_num) (by norm_num)
      (by norm_num) (by norm_num) (by norm_num)]
    norm_num
  have hq0 : 0 ≤ f32 (h / 60) := f32_nonneg (div_nonneg h0 (by norm_num))
  have hq1 : f32 (h / 60) < 6 := by
    have hle : h / 60 ≤ ((360 : ℚ) - 1 / 32768) / 60 :=
      div_le_div_of_nonneg_right (f32_lt_360 rh h0 h1) (by norm_num)
    have := f32_mono hle
    rw [f32_hmax_div_60] at this
    linarith
  have hi : hsv_hi_f32 h = ⌊f32 (h / 60)⌋ := by
    unfold hsv_hi_f32
    exact ctrunc_eq_floor hq0
  have hlt : ⌊f32 (h / 60)⌋ < 6 := by
    rw [Int.floor_lt]
    push_cast
    exact hq1
  have i0 : 0 ≤ hsv_hi_f32 h := by
    rw [hi]
    exact Int.floor_nonneg.mpr hq0
  refine ⟨⟨i0, by rw [hi]; omega⟩, ?_⟩
  unfold hsv_f_f32
  rw [hi]
  exact f32_unit_range (by linarith [Int.floor_le (f32 (h / 60))])
    (by linarith [Int.lt_floor_add_one (f32 (h / 60))])

lemma hsv_to_rgb_f32_of_some {h s v : ℚ} {out : Rgb}
    (e : hsv_switch (hsv_hi_f32 h) (cround (f32 (f32 (v * f32 (1 - s)) * 255)))
      (cround (f32 (f32 (v * f32 (1 - f32 (hsv_f_f32 h * s))) * 255)))
      (cround (f32 (f32 (v * f32 (1 - f32 (f32 (1 - hsv_f_f32 h) * s))) * 255)))
      (cround (f32 (v * 255))) = some out) (old : Rgb) :
    hsv_to_rgb_f32 h s v old = out := by
  unfold hsv_to_rgb_f32
  dsimp only
  rw [e]

/-- The candidate intensities of `hsv_to_rgb` in binary32 are ordered:
`p ≤ q ≤ iv` and `p ≤ t ≤ iv`, for a remainder `f` in `[0, 1]`. -/
lemma hsv_cand_order_f32 {f s v : ℚ} (hf : 0 ≤ f ∧ f ≤ 1) (hs : 0 ≤ s ∧ s ≤ 1)
    (hv : 0 ≤ v ∧ v ≤ 1) (rs : f32 s = s) (rv : f32 v = v) :
    (cround (f32 (f32 (v * f32 (1 - s)) * 255)) ≤
        cround (f32 (f32 (v * f32 (1 - f32 (f * s))) * 255)) ∧
      cround (f32 (f32 (v * f32 (1 - f32 (f * s))) * 255)) ≤ cround (f32 (v * 255))) ∧
    (cround (f32 (f32 (v * f32 (1 - s)) * 255)) ≤
        cround (f32 (f32 (v * f32 (1 - f32 (f32 (1 - f) * s))) * 255)) ∧
      cround (f32 (f32 (v * f32 (1 - f32 (f32 (1 - f) * s))) * 255)) ≤
        cround (f32 (v * 255))) := by
  obtain ⟨f0, f1⟩ := hf
  obtain ⟨s0, s1⟩ := hs
  obtain ⟨v0, v1⟩ := hv
  -- every weight `w` with `0 ≤ w ≤ s` gives a candidate between `p` and `iv`
  have key : ∀ w : ℚ, 0 ≤ w → w ≤ s →
      cround (f32 (f32 (v * f32 (1 - s)) * 255)) ≤ cround (f32 (f32 (v * f32 (1 - w)) * 255)) ∧
        cround (f32 (f32 (v * f32 (1 - w)) * 255)) ≤ cround (f32 (v * 255)) := by
    intro w w0 ws
    have a0 : 0 ≤ f32 (1 - s) := f32_nonneg (by linarith)
    have a1 : f32 (1 - s) ≤ f32 (1 - w) := f32_mono (by linarith)
    have a2 : f32 (1 - w) ≤ 1 := by
      have := f32_mono (by linarith : 1 - w ≤ 1)
      rwa [f32_one] at this
    have b0 : 0 ≤ f32 (v * f32 (1 - s)) := f32_nonneg (mul_nonneg v0 a0)
    have b1 : f32 (v * f32 (1 - s)) ≤ f32 (v * f32 (1 - w)) :=
      f32_mono (mul_le_mul_of_nonneg_left a1 v0)
    have b2 : f32 (v * f32 (1 - w)) ≤ v := by
      have := f32_mono (by nlinarith [mul_nonneg v0 (sub_nonneg.mpr a2)] : v * f32 (1 - w) ≤ v)
      rwa [rv] at this
    have c0 : 0 ≤ f32 (f32 (v * f32 (1 - s)) * 255) := f32_nonneg (by linarith)
    have c1 : f32 (f32 (v * f32 (1 - s)) * 255) ≤ f32 (f32 (v * f32 (1 - w)) * 255) :=
      f32_mono (by linarith)
    have c2 : f32 (f32 (v * f32 (1 - w)) * 255) ≤ f32 (v * 255) := f32_mono (by linarith)
    exact ⟨cround_mono_nonneg c0 c1, cround_mono_nonneg (le_trans c0 c1) c2⟩
  have w1 : 0 ≤ f32 (f * s) ∧ f32 (f * s) ≤ s := by
    constructor
    · exact f32_nonneg (mul_nonneg f0 s0)
    · have := f32_mono (by nlinarith [mul_nonneg s0 (sub_nonneg.mpr f1)] : f * s ≤ s)
      rwa [rs] at this
  obtain ⟨g0, g1⟩ := f32_unit_range (by linarith : 0 ≤ 1 - f) (by linarith : 1 - f ≤ 1)
  have w2 : 0 ≤ f32 (f32 (1 - f) * s) ∧ f32 (f32 (1 - f) * s) ≤ s := by
    constructor
    · exact f32_nonneg (mul_nonneg g0 s0)
    · have := f32_mono (by nlinarith [mul_nonneg s0 (sub_nonneg.mpr g1)] :
        f32 (1 - f) * s ≤ s)
      rwa [rs] at this
  exact ⟨key _ w1.1 w1.2, key _ w2.1 w2.2⟩

/-- With zero saturation every sector of `hsv_to_rgb` in binary32 assigns the gray
`iv = round(fl(v * 255))`. -/
lemma hsv_to_rgb_f32_gray {h v : ℚ} (rh : f32 h = h) (h0 : 0 ≤ h) (h1 : h < 360)
    (rv : f32 v = v) (old : Rgb) :
    hsv_to_rgb_f32 h 0 v old =
      ⟨cround (f32 (v * 255)), cround (f32 (v * 255)), cround (f32 (v * 255))⟩ := by
  obtain ⟨⟨i0, i5⟩, _⟩ := hsv_sector_valid_f32 rh h0 h1
  obtain ⟨out0, e0, br, bg, bb⟩ :=
    hsv_switch_mem i0 i5 (cround (f32 (f32 (v * f32 (1 - 0)) * 255)))
      (cround (f32 (f32 (v * f32 (1 - f32 (hsv_f_f32 h * 0))) * 255)))
      (cround (f32 (f32 (v * f32 (1 - f32 (f32 (1 - hsv_f_f32 h) * 0))) * 255)))
      (cround (f32 (v * 255)))
      (fun z => z = cround (f32 (v * 255)))
      (by simp only [sub_zero, f32_one, mul_one, rv])
      (by simp only [mul_zero, f32_zero, sub_zero, f32_one, mul_one, rv])
      (by simp only [mul_zero, f32_zero, sub_zero, f32_one, mul_one, rv])
      rfl
  rw [hsv_to_rgb_f32_of_some e0 old]
  cases out0
  simp only at br bg bb
  rw [br, bg, bb]

/-- C17, as amended (`hsv_to_rgb` extreme channels): for every binary32 `h` with
`0 ≤ h < 360` and all binary32 `s`, `v` in `[0,1]`, the largest of the three outputs
equals `iv = round(fl(v * 255))` and the smallest equals
`p = round(fl(fl(v * fl(1 - s)) * 255))`, where `fl` rounds each difference and product
to binary32 as the code does; with `s = 0` the output is the gray `r = g = b = iv`
whatever the hue in that range. -/
theorem hsv_extreme_channels (h s v : ℚ) (hh : 0 ≤ h ∧ h < 360) (hs : 0 ≤ s ∧ s ≤ 1)
    (hv : 0 ≤ v ∧ v ≤ 1) (rh : f32 h = h) (rs : f32 s = s) (rv : f32 v = v) (old : Rgb) :
    max (max (hsv_to_rgb_f32 h s v old).r (hsv_to_rgb_f32 h s v old).g)
        (hsv_to_rgb_f32 h s v old).b = cround (f32 (v * 255)) ∧
      min (min (hsv_to_rgb_f32 h s v old).r (hsv_to_rgb_f32 h s v old).g)
        (hsv_to_rgb_f32 h s v old).b = cround (f32 (f32 (v * f32 (1 - s)) * 255)) ∧
      hsv_to_rgb_f32 h 0 v old =
        ⟨cround (f32 (v * 255)), cround (f32 (v * 255)), cround (f32 (v * 255))⟩ := by
  obtain ⟨⟨i0, i5⟩, hf⟩ := hsv_sector_valid_f32 rh hh.1 hh.2
  obtain ⟨⟨hpq, hqv⟩, hpt, htv⟩ := hsv_cand_order_f32 hf hs hv rs rv
  obtain ⟨out, e, hmax, hmin⟩ := hsv_switch_extrema i0 i5 hpq hqv hpt htv
  rw [hsv_to_rgb_f32_of_some e old]
  exact ⟨hmax, hmin, hsv_to_rgb_f32_gray rh hh.1 hh.2 rv old⟩

/-! ## Extreme channels and zero saturation at concrete inputs -/

lemma cround_eq {x : ℚ} {n : ℤ} (h0 : 0 ≤ x) (h1 : (n : ℚ) ≤ x + 1 / 2)
    (h2 : x + 1 / 2 < (n : ℚ) + 1) : cround x = n := by
  unfold cround
  rw [if_pos h0, Int.floor_eq_iff]
  exact ⟨h1, h2⟩

theorem hsv_extreme_channels_witness :
    ((0 : ℚ) ≤ 200 ∧ (200 : ℚ) < 360) ∧ ((0 : ℚ) ≤ 1 / 4 ∧ (1 / 4 : ℚ) ≤ 1) ∧
      ((0 : ℚ) ≤ 1 / 2 ∧ (1 / 2 : ℚ) ≤ 1) ∧ f32 200 = 200 ∧ f32 (1 / 4) = 1 / 4 ∧
      f32 (1 / 2) = 1 / 2 ∧
      max (max (hsv_to_rgb_f32 200 (1 / 4) (1 / 2) ⟨7, 7, 7⟩).r
          (hsv_to_rgb_f32 200 (1 / 4) (1 / 2) ⟨7, 7, 7⟩).g)
          (hsv_to_rgb_f32 200 (1 / 4) (1 / 2) ⟨7, 7, 7⟩).b = cround (f32 (1 / 2 * 255)) ∧
      min (min (hsv_to_rgb_f32 200 (1 / 4) (1 / 2) ⟨7, 7, 7⟩).r
          (hsv_to_rgb_f32 200 (1 / 4) (1 / 2) ⟨7, 7, 7⟩).g)
          (hsv_to_rgb_f32 200 (1 / 4) (1 / 2) ⟨7, 7, 7⟩).b =
        cround (f32 (f32 (1 / 2 * f32 (1 - 1 / 4)) * 255)) ∧
      hsv_to_rgb_f32 200 0 (1 / 2) ⟨7, 7, 7⟩ =
        ⟨cround (f32 (1 / 2 * 255)), cround (f32 (1 / 2 * 255)), cround (f32 (1 / 2 * 255))⟩ :=
  ⟨by norm_num, by norm_num, by norm_num,
    f32_fix 7 13107200 (by norm_num) (by norm_num) (by norm_num) (by norm_num),
    f32_fix (-2) 8388608 (by norm_num) (by norm_num) (by norm_num) (by norm_num),
    f32_fix (-1) 8388608 (by norm_num) (by norm_num) (by norm_num) (by norm_num),
    hsv_extreme_channels 200 (1 / 4) (1 / 2) (by norm_num) (by norm_num) (by norm_num)
      (f32_fix 7 13107200 (by norm_num) (by norm_num) (by norm_num) (by norm_num))
      (f32_fix (-2) 8388608 (by norm_num) (by norm_num) (by norm_num) (by norm_num))
      (f32_fix (-1) 8388608 (by norm_num) (by norm_num) (by norm_num) (by norm_num))
      ⟨7, 7, 7⟩⟩

/-- C17, counterexample to the claim as stated: at the binary32 inputs `h = 275`,
`s = 0`, `v = 11744051/16777216`, all in range, `hsv_to_rgb` in binary32 writes
`(179, 179, 179)`, because the product `v * 255` is rounded to `178.5` before `round`,
while `round(255 * v)` of the exact product is `178`. -/
theorem hsv_to_rgb_f32_largest_channel_off_by_one :
    ((0 : ℚ) ≤ 275 ∧ (275 : ℚ) < 360) ∧
      ((0 : ℚ) ≤ 11744051 / 16777216 ∧ (11744051 : ℚ) / 16777216 ≤ 1) ∧
      f32 275 = 275 ∧ f32 ((11744051 : ℚ) / 16777216) = 11744051 / 16777216 ∧
      hsv_to_rgb_f32 275 0 (11744051 / 16777216) ⟨7, 7, 7⟩ = ⟨179, 179, 179⟩ ∧
      cround (255 * ((11744051 : ℚ) / 16777216)) = 178 ∧
      max (max (hsv_to_rgb_f32 275 0 (11744051 / 16777216) ⟨7, 7, 7⟩).r
          (hsv_to_rgb_f32 275 0 (11744051 / 16777216) ⟨7, 7, 7⟩).g)
          (hsv_to_rgb_f32 275 0 (11744051 / 16777216) ⟨7, 7, 7⟩).b ≠
        cround (255 * ((11744051 : ℚ) / 16777216)) := by
  have f32_275 : f32 275 = 275 :=
    f32_fix 8 9011200 (by norm_num) (by norm_num) (by norm_num) (by norm_num)
  have f32_v_counter : f32 ((11744051 : ℚ) / 16777216) = 11744051 / 16777216 :=
    f32_fix (-1) 11744051 (by norm_num) (by norm_num) (by norm_num) (by norm_num)
  -- The exact product `v * 255` is just below `178.5`; its binary32 rounding is
  -- `178.5`.
  have f32_v_counter_mul : f32 ((11744051 : ℚ) / 16777216 * 255) = 357 / 2 := by
    rw [f32_eval 7 11698176 (1 / 65536) (by norm_num) (by norm_num) (by norm_num)
      (by norm_num) (by norm_num) (by norm_num)]
    norm_num
  have c1 : cround ((357 : ℚ) / 2) = 179 :=
    cround_eq (by norm_num) (by norm_num) (by norm_num)
  have c2 : cround (255 * ((11744051 : ℚ) / 16777216)) = 178 :=
    cround_eq (by norm_num) (by norm_num) (by norm_num)
  have ev : hsv_to_rgb_f32 275 0 (11744051 / 16777216) ⟨7, 7, 7⟩ = ⟨179, 179, 179⟩ := by
    rw [hsv_to_rgb_f32_gray f32_275 (by norm_num) (by norm_num) f32_v_counter,
      f32_v_counter_mul, c1]
  refine ⟨by norm_num, by norm_num, f32_275, f32_v_counter, ev, c2, ?_⟩
  rw [ev, c2]
  decide

/-! ## Zero saturation in `hsl_to_rgb` in binary32 -/

lemma hsl_q_f32_zero {l : ℚ} (rl : f32 l = l) : hsl_q_f32 0 l = l := by
  unfold hsl_q_f32
  split_ifs
  · rw [add_zero, f32_one, mul_one, rl]
  · rw [add_zero, rl, mul_zero, f32_zero, sub_zero, rl]

lemma hsl_p_f32_zero {l : ℚ} (hl : 0 ≤ l) (rl : f32 l = l) : hsl_p_f32 0 l = l := by
  unfold hsl_p_f32
  rw [hsl_q_f32_zero rl, f32_two_mul hl rl]
  have e : 2 * l - l = l := by ring
  rw [e, rl]

/-- With `p = q` the piecewise colour function in binary32 returns that common value
in each of its four regions. -/
lemma hsl_color_f32_gray {p : ℚ} (hp : 0 ≤ p) (rp : f32 p = p) (t : ℚ) :
    hsl_color_f32 p p t = p := by
  unfold hsl_color_f32
  split_ifs
  · rw [sub_self, f32_zero, zero_mul, f32_zero, zero_mul, f32_zero, add_zero, rp]
  · rfl
  · rw [sub_self, f32_zero, zero_mul, f32_zero, zero_mul, f64_zero, add_zero,
      f64_of_f32 hp rp, rp]
  · rfl

lemma hsl_to_rgb_f32_gray {l : ℚ} (hl : 0 ≤ l) (rl : f32 l = l) (h : ℚ) :
    hsl_to_rgb_f32 h 0 l =
      ⟨cround (f32 (l * 255)), cround (f32 (l * 255)), cround (f32 (l * 255))⟩ := by
  unfold hsl_to_rgb_f32
  dsimp only
  rw [hsl_q_f32_zero rl, hsl_p_f32_zero hl rl, hsl_color_f32_gray hl rl,
    hsl_color_f32_gray hl rl, hsl_color_f32_gray hl rl]

/-- C18, as amended (`hsl_to_rgb` with zero saturation ignores hue): for every binary32
`l` in `[0,1]` and every finite hue `h` whatsoever, values outside `[0,360)` included,
`hsl_to_rgb h 0 l` gives `r = g = b = round(fl(l * 255))`, where `fl` rounds the
product to binary32 as the code does. -/
theorem hsl_to_rgb_zero_saturation (h l : ℚ) (hl : 0 ≤ l ∧ l ≤ 1) (rl : f32 l = l) :
    hsl_to_rgb_f32 h 0 l =
      ⟨cround (f32 (l * 255)), cround (f32 (l * 255)), cround (f32 (l * 255))⟩ :=
  hsl_to_rgb_f32_gray hl.1 rl h

theorem hsl_to_rgb_zero_saturation_witness :
    ((0 : ℚ) ≤ 3 / 4 ∧ (3 / 4 : ℚ) ≤ 1) ∧ f32 (3 / 4) = 3 / 4 ∧
      hsl_to_rgb_f32 (-1000) 0 (3 / 4) =
        ⟨cround (f32 (3 / 4 * 255)), cround (f32 (3 / 4 * 255)), cround (f32 (3 / 4 * 255))⟩ :=
  ⟨by norm_num, f32_fix (-1) 12582912 (by norm_num) (by norm_num) (by norm_num) (by norm_num),
    hsl_to_rgb_zero_saturation (-1000) (3 / 4) (by norm_num)
      (f32_fix (-1) 12582912 (by norm_num) (by norm_num) (by norm_num) (by norm_num))⟩

/-- C18, counterexample to the claim as stated: at `h = 130`, `s = 0` and the binary32
lightness `l = 12270395/16777216` in `[0,1]`, `hsl_to_rgb` in binary32 writes
`(187, 187, 187)`, because the product `l * 255` is rounded to `186.5` before `round`,
while `round(255 * l)` of the exact product is `186`. -/
theorem hsl_to_rgb_f32_gray_off_by_one :
    ((0 : ℚ) ≤ 12270395 / 16777216 ∧ (12270395 : ℚ) / 16777216 ≤ 1) ∧
      f32 ((12270395 : ℚ) / 16777216) = 12270395 / 16777216 ∧
      hsl_to_rgb_f32 130 0 (12270395 / 16777216) = ⟨187, 187, 187⟩ ∧
      cround (255 * ((12270395 : ℚ) / 16777216)) = 186 ∧
      (hsl_to_rgb_f32 130 0 (12270395 / 16777216)).r ≠
        cround (255 * ((12270395 : ℚ) / 16777216)) := by
  have f32_l_counter : f32 ((12270395 : ℚ) / 16777216) = 12270395 / 16777216 :=
    f32_fix (-1) 12270395 (by norm_num) (by norm_num) (by norm_num) (by norm_num)
  -- The exact product `l * 255` is just below `186.5`; its binary32 rounding is
  -- `186.5`.
  have f32_l_counter_mul : f32 ((12270395 : ℚ) / 16777216 * 255) = 373 / 2 := by
    rw [f32_eval 7 12222464 (1 / 65536) (by norm_num) (by norm_num) (by norm_num)
      (by norm_num) (by norm_num) (by norm_num)]
    norm_num
  have c1 : cround ((373 : ℚ) / 2) = 187 :=
    cround_eq (by norm_num) (by norm_num) (by norm_num)
  have c2 : cround (255 * ((12270395 : ℚ) / 16777216)) = 186 :=
    cround_eq (by norm_num) (by norm_num) (by norm_num)
  have ev : hsl_to_rgb_f32 130 0 (12270395 / 16777216) = ⟨187, 187, 187⟩ := by
    rw [hsl_to_rgb_f32_gray (by norm_num) f32_l_counter, f32_l_counter_mul, c1]
  refine ⟨by norm_num, f32_l_counter, ev, c2, ?_⟩
  rw [ev, c2]
  decide

/-- C15, counterexample to the claim as stated: at `h = 240` the red offset
`h/360 + 1/3` is exactly `1`, in exact arithmetic and in binary32 alike; `1` is neither
`< 0` nor `> 1`, so the wrap step leaves it at `1`, outside the half-open interval
`[0,1)`. -/
theorem hsl_wrap_red_offset_at_240 :
    ((0 : ℚ) ≤ 240 ∧ (240 : ℚ) < 360) ∧
      (hsl_wrap ((240 : ℚ) / 360 + 1 / 3) = 1 ∧ ¬ hsl_wrap ((240 : ℚ) / 360 + 1 / 3) < 1) ∧
      (hsl_wrap_f32 (hsl_t0_f32 (f32 ((240 : ℚ) / 360))) = 1 ∧
        ¬ hsl_wrap_f32 (hsl_t0_f32 (f32 ((240 : ℚ) / 360))) < 1) := by
  have f32_two_thirds : f32 ((240 : ℚ) / 360) = 11184811 / 16777216 := by
    rw [f32_eval (-1) 11184811 (1 / 16777216) (by norm_num) (by norm_num) (by norm_num)
      (by norm_num) (by norm_num) (by norm_num)]
    norm_num
  have f64_third : f64 ((1 : ℚ) / 3) = 6004799503160661 / 18014398509481984 := by
    rw [f64_eval (-2) 6004799503160661 (1 / 18014398509481984) (by norm_num) (by norm_num)
      (by norm_num) (by norm_num) (by norm_num) (by norm_num)]
    norm_num
  have f64_red_offset_240 :
      f64 ((11184811 : ℚ) / 16777216 + 6004799503160661 / 18014398509481984) =
        4503599716848981 / 4503599627370496 := by
    rw [f64_eval 0 4503599716848981 (1 / 4503599627370496) (by norm_num) (by norm_num)
      (by norm_num) (by norm_num) (by norm_num) (by norm_num)]
    norm_num
  have f32_red_offset_240 : f32 ((4503599716848981 : ℚ) / 4503599627370496) = 1 := by
    rw [f32_eval 0 8388608 (1 / 8388608) (by norm_num) (by norm_num) (by norm_num)
      (by norm_num) (by norm_num) (by norm_num)]
    norm_num
  have e : hsl_wrap ((240 : ℚ) / 360 + 1 / 3) = 1 := by
    unfold hsl_wrap
    norm_num
  have t0 : hsl_t0_f32 (f32 ((240 : ℚ) / 360)) = 1 := by
    unfold hsl_t0_f32
    rw [f32_two_thirds, f64_third, f64_red_offset_240, f32_red_offset_240]
  have e32 : hsl_wrap_f32 (hsl_t0_f32 (f32 ((240 : ℚ) / 360))) = 1 := by
    rw [t0]
    unfold hsl_wrap_f32
    norm_num
  refine ⟨by norm_num, ⟨e, ?_⟩, e32, ?_⟩
  · rw [e]
    norm_num
  · rw [e32]
    norm_num

end Colorspace
